import Mathlib

/-!
Verification of the dynamic discovery shared informer factory
(package informer, DynamicDiscoverySharedInformerFactory).

The Go code is shallowly embedded: the factory's mutable fields become a
FactoryState record, Go maps become association lists with map semantics
(lookup, overwrite, delete), stop channels become numeric handles together
with a ledger of closed handles, and the external collaborators (workspace
lister, per-cluster discovery, the dynamic informer machinery) become
explicit parameters.  All definitions are executable so that concrete
scenarios evaluate by decide or rfl.
-/

instance {ε α : Type} [DecidableEq ε] [DecidableEq α] : DecidableEq (Except ε α) := fun a b =>
  match a, b with
  | .ok x, .ok y =>
    if h : x = y then .isTrue (by rw [h]) else .isFalse (by intro hh; cases hh; exact h rfl)
  | .error x, .error y =>
    if h : x = y then .isTrue (by rw [h]) else .isFalse (by intro hh; cases hh; exact h rfl)
  | .ok _, .error _ => .isFalse (by intro hh; cases hh)
  | .error _, .ok _ => .isFalse (by intro hh; cases hh)

/-- schema.GroupVersionResource: a (group, version, resource) triple. -/
structure GroupVersionResource where
  group : String
  version : String
  resource : String
deriving DecidableEq

/-- metav1.APIResource, restricted to the fields discoverTypes reads:
Name, Namespaced, Verbs. -/
structure APIResource where
  name : String
  namespaced : Bool
  verbs : List String
deriving DecidableEq

/-- metav1.APIResourceList, restricted to the fields discoverTypes reads:
GroupVersion and APIResources. -/
structure APIResourceList where
  groupVersion : String
  apiResources : List APIResource
deriving DecidableEq

/-- A dynamic informer, as far as the factory observes it: its identity
(which creation produced it) and whether HasSynced currently reports true.
The cache reader handed out by Lister() is derived from the identity. -/
structure GenericInformer where
  id : Nat
  synced : Bool
deriving DecidableEq

/-- Association list lookup: the value bound to key k, if any.  This is the
reading m[k] of a Go map modelled as a list of bindings. -/
def lookupA {α β : Type} [DecidableEq α] : List (α × β) → α → Option β
  | [], _ => none
  | (a, b) :: t, k => if a = k then some b else lookupA t k

/-- Association list deletion: delete(m, k). -/
def eraseA {α β : Type} [DecidableEq α] (l : List (α × β)) (k : α) : List (α × β) :=
  l.filter (fun p => decide (p.1 ≠ k))

/-- Association list assignment: m[k] = v (overwrite semantics). -/
def updateA {α β : Type} [DecidableEq α] (l : List (α × β)) (k : α) (v : β) : List (α × β) :=
  eraseA l k ++ [(k, v)]

/-- The factory's mutable state: the fields of
DynamicDiscoverySharedInformerFactory that the verified operations touch.
Stop channels are numeric handles drawn from nextChan; closing a channel
records its handle in closedChans.  nextId identifies each informer created
by NewFilteredDynamicInformer. -/
structure FactoryState where
  informers : List (GroupVersionResource × GenericInformer)
  startedInformers : List GroupVersionResource
  informerStops : List (GroupVersionResource × Nat)
  closedChans : List Nat
  terminating : Bool
  handlers : List Nat
  indexers : List (String × Nat)
  nextId : Nat
  nextChan : Nat
deriving DecidableEq

/-- The environment a discovery pass runs against: the workspace lister
result, each logical cluster's ServerPreferredResources result, and whether
the AddIndexers call on a freshly created informer fails (the only failure
informerForResourceLockHeld can surface). -/
structure DiscoveryEnv where
  workspaces : Except String (List String)
  disco : String → Except String (List APIResourceList)
  addIndexersFail : GroupVersionResource → Bool

/-- strings.Count / strings.Index based parsing of schema.ParseGroupVersion:
empty or "/" parses to the empty GroupVersion, no slash means a bare
version, one slash splits group from version, more is an error (none). -/
def splitAtFirstSlash : List Char → List Char × List Char
  | [] => ([], [])
  | c :: cs =>
    if c = '/' then ([], cs)
    else
      let r := splitAtFirstSlash cs
      (c :: r.1, r.2)

/-- schema.ParseGroupVersion. -/
def parseGroupVersion (gv : String) : Option (String × String) :=
  if gv = "" ∨ gv = "/" then some (("", ""))
  else
    match (gv.toList.filter (fun c => decide (c = '/'))).length with
    | 0 => some (("", gv))
    | 1 =>
      let r := splitAtFirstSlash gv.toList
      some ((String.mk r.1, String.mk r.2))
    | _ => none

/-- The discovery filter applied to each APIResource in discoverTypes:
skip subresources (names containing a slash), skip cluster-scoped types,
and skip types that do not support both the list and watch verbs. -/
def keepResource (ai : APIResource) : Bool :=
  decide (('/' ∉ ai.name.toList) ∧ ai.namespaced = true ∧
    ("list") ∈ ai.verbs ∧ ("watch") ∈ ai.verbs)

/-- Insertion into the latest set (a Go map used as a set): a no-op when the
key is already present. -/
def insertGVR (l : List GroupVersionResource) (g : GroupVersionResource) :
    List GroupVersionResource :=
  if g ∈ l then l else l ++ [g]

/-- The inner resource loop of discoverTypes for one APIResourceList whose
GroupVersion has parsed to gv. -/
def addResources (gv : String × String) :
    List GroupVersionResource → List APIResource → List GroupVersionResource
  | acc, [] => acc
  | acc, ai :: rest =>
    addResources gv
      (if keepResource ai then insertGVR acc ⟨gv.1, gv.2, ai.name⟩ else acc) rest

/-- Processing of one APIResourceList in discoverTypes: parse the
GroupVersion (an error aborts the pass) and fold its resources in. -/
def addResourceList (acc : List GroupVersionResource) (rl : APIResourceList) :
    Except String (List GroupVersionResource) :=
  match parseGroupVersion rl.groupVersion with
  | none => .error ("unexpected GroupVersion string")
  | some gv => .ok (addResources gv acc rl.apiResources)

/-- Error-propagating left fold, the shape of the discovery loops. -/
def foldE {α β : Type} (f : β → α → Except String β) : β → List α → Except String β
  | acc, [] => .ok acc
  | acc, a :: t =>
    match f acc a with
    | .error e => .error e
    | .ok acc2 => foldE f acc2 t

/-- Processing of one workspace in discoverTypes: its discovery call
(failure aborts the pass) followed by all its resource lists. -/
def addWorkspace (env : DiscoveryEnv) (acc : List GroupVersionResource) (ws : String) :
    Except String (List GroupVersionResource) :=
  match env.disco ws with
  | .error e => .error e
  | .ok rls => foldE addResourceList acc rls

/-- The discovery phase of discoverTypes: list the workspaces and union
every kept GroupVersionResource into the latest set. -/
def computeLatest (env : DiscoveryEnv) : Except String (List GroupVersionResource) :=
  match env.workspaces with
  | .error e => .error e
  | .ok wss => foldE (addWorkspace env) [] wss

/-- The pinned customresourcedefinitions key
(apiextensionsv1.SchemeGroupVersion.WithResource). -/
def crdGVR : GroupVersionResource :=
  ⟨"apiextensions.k8s.io", "v1", "customresourcedefinitions"⟩

/-- The pinned apibindings key
(apisv1alpha1.SchemeGroupVersion.WithResource). -/
def apibindingsGVR : GroupVersionResource :=
  ⟨"apis.kcp.dev", "v1alpha1", "apibindings"⟩

/-- The HACK allow-list in calculateInformersLockHeld. -/
def pinned (g : GroupVersionResource) : Prop :=
  g = crdGVR ∨ g = apibindingsGVR

instance (g : GroupVersionResource) : Decidable (pinned g) := by
  unfold pinned
  infer_instance

/-- calculateInformersLockHeld: toAdd is every latest key with no informer,
toRemove is every non-pinned informer key absent from latest. -/
def calculateInformersLockHeld (informers : List (GroupVersionResource × GenericInformer))
    (latest : List GroupVersionResource) :
    List GroupVersionResource × List GroupVersionResource :=
  (latest.filter (fun g => decide (lookupA informers g = none)),
   (informers.map Prod.fst).filter (fun g => decide (¬ pinned g ∧ g ∉ latest)))

/-- informerForResourceLockHeld: return the existing informer if present,
otherwise create one (a fresh identity, not yet synced), attach the fan-out
event handler, add the factory indexers (which may fail, in which case the
informer is not stored), and store it. -/
def informerForResourceLockHeld (fail : GroupVersionResource → Bool)
    (gvr : GroupVersionResource) (s : FactoryState) :
    Except String GenericInformer × FactoryState :=
  match lookupA s.informers gvr with
  | some inf => (.ok inf, s)
  | none =>
    let inf : GenericInformer := ⟨s.nextId, false⟩
    if fail gvr then
      (.error ("indexer already exists"), { s with nextId := s.nextId + 1 })
    else
      (.ok inf, { s with
        informers := s.informers ++ [(gvr, inf)],
        nextId := s.nextId + 1 })

/-- InformerForResource: the read-locked fast path followed, on a miss, by
the locked find-or-create. -/
def InformerForResource (fail : GroupVersionResource → Bool)
    (gvr : GroupVersionResource) (s : FactoryState) :
    Except String GenericInformer × FactoryState :=
  match lookupA s.informers gvr with
  | some inf => (.ok inf, s)
  | none => informerForResourceLockHeld fail gvr s

/-- The per-key tail of the toAdd loop of discoverTypes: allocate a fresh
stop channel, run the informer on it in the background, record the stop
channel and mark the informer started. -/
def startOne (gvr : GroupVersionResource) (s1 : FactoryState) : FactoryState :=
  { s1 with
    informerStops := updateA s1.informerStops gvr s1.nextChan,
    startedInformers :=
      if gvr ∈ s1.startedInformers then s1.startedInformers
      else s1.startedInformers ++ [gvr],
    nextChan := s1.nextChan + 1 }

/-- The toAdd loop of discoverTypes: find-or-create each informer (an error
aborts the whole pass), then give it a fresh stop channel, run it, and mark
it started. -/
def processAdds (fail : GroupVersionResource → Bool) :
    List GroupVersionResource → FactoryState → Except String Unit × FactoryState
  | [], s => (.ok (), s)
  | gvr :: rest, s =>
    match informerForResourceLockHeld fail gvr s with
    | (.error e, s1) => (.error e, s1)
    | (.ok _, s1) => processAdds fail rest (startOne gvr s1)

/-- The per-key body of the toRemove loop of discoverTypes: close the stop
channel if one is registered, then delete the informer, its stop channel
and its started flag. -/
def removeOne (gvr : GroupVersionResource) (s : FactoryState) : FactoryState :=
  let s1 :=
    match lookupA s.informerStops gvr with
    | some ch => { s with closedChans := s.closedChans ++ [ch] }
    | none => s
  { s1 with
    informers := eraseA s1.informers gvr,
    informerStops := eraseA s1.informerStops gvr,
    startedInformers := s1.startedInformers.filter (fun g => decide (g ≠ gvr)) }

/-- The toRemove loop of discoverTypes. -/
def processRemoves : List GroupVersionResource → FactoryState → FactoryState
  | [], s => s
  | gvr :: rest, s => processRemoves rest (removeOne gvr s)

/-- The reconciliation half of discoverTypes: diff under the read lock,
return early when there is nothing to do, re-diff under the write lock,
then run the add loop (an individual failure aborts) and the remove loop. -/
def reconcile (fail : GroupVersionResource → Bool)
    (latest : List GroupVersionResource) (s : FactoryState) :
    Except String Unit × FactoryState :=
  let c := calculateInformersLockHeld s.informers latest
  if c.1.isEmpty && c.2.isEmpty then (.ok (), s)
  else
    let c2 := calculateInformersLockHeld s.informers latest
    if c2.1.isEmpty && c2.2.isEmpty then (.ok (), s)
    else
      match processAdds fail c2.1 s with
      | (.error e, s1) => (.error e, s1)
      | (.ok _, s1) => (.ok (), processRemoves c2.2 s1)

/-- discoverTypes: one discovery pass followed by reconciliation.  Any
error while computing the latest set aborts before the registry is read or
written. -/
def discoverTypes (env : DiscoveryEnv) (s : FactoryState) :
    Except String Unit × FactoryState :=
  match computeLatest env with
  | .error e => (.error e, s)
  | .ok latest => reconcile env.addIndexersFail latest s

/-- The cache reader Lister() of an informer, identified by the informer. -/
def listerOf (inf : GenericInformer) : Nat := inf.id

/-- The loop body of Listers: unsynced informers go to notSynced, synced
ones contribute their lister. -/
def listersGo : List (GroupVersionResource × GenericInformer) →
    List (GroupVersionResource × Nat) → List GroupVersionResource →
    List (GroupVersionResource × Nat) × List GroupVersionResource
  | [], listers, notSynced => (listers, notSynced)
  | (gvr, inf) :: rest, listers, notSynced =>
    if inf.synced then listersGo rest (listers ++ [(gvr, listerOf inf)]) notSynced
    else listersGo rest listers (notSynced ++ [gvr])

/-- Listers: empty when terminating, otherwise the synced/not-synced split
of the informer map. -/
def Listers (s : FactoryState) :
    List (GroupVersionResource × Nat) × List GroupVersionResource :=
  if s.terminating then ([], []) else listersGo s.informers [] []

/-- Go's copy builtin on slices: fills the destination's length from the
source, keeping the destination's tail. -/
def goCopy {α : Type} (dst src : List α) : List α :=
  src.take dst.length ++ dst.drop src.length

/-- AddEventHandler, exactly as written in the source: load the current
handlers, declare a nil newHandlers slice, copy the current handlers into
it (a nil destination receives nothing), append the new handler and store. -/
def AddEventHandler (handlers : List Nat) (h : Nat) : List Nat :=
  let newHandlers : List Nat := []
  let newHandlers := goCopy newHandlers handlers
  newHandlers ++ [h]

/-- The AddFunc dispatch loop installed on every informer: call OnAdd on
every currently stored handler, in order.  The result is the call log. -/
def dispatchAdd (handlers : List Nat) (gvr : GroupVersionResource) (obj : Nat) :
    List (Nat × GroupVersionResource × Nat) :=
  handlers.map (fun h => (h, gvr, obj))

/-- AddIndexers: walk the argument bindings in order, failing on the first
name already present and otherwise adding each one; the first component is
the conflicting name when there is one. -/
def AddIndexers : List (String × Nat) → List (String × Nat) →
    Option String × List (String × Nat)
  | cur, [] => (none, cur)
  | cur, (n, f) :: rest =>
    if (lookupA cur n).isSome then (some n, cur)
    else AddIndexers (cur ++ [(n, f)]) rest

/-- One externally triggered operation on the factory, for interleaving
arguments: an InformerForResource call or a discovery pass. -/
inductive FactoryOp where
  | informerFor (fail : GroupVersionResource → Bool) (gvr : GroupVersionResource)
  | discover (env : DiscoveryEnv)

/-- The state reached by one operation. -/
def applyOp (s : FactoryState) : FactoryOp → FactoryState
  | .informerFor fail gvr => (InformerForResource fail gvr s).2
  | .discover env => (discoverTypes env s).2

/-- The state reached by a sequence of operations. -/
def runOps (s : FactoryState) (ops : List FactoryOp) : FactoryState :=
  ops.foldl applyOp s

/-! ## Concrete scenario data

Small closed instances of the environment and of factory states, used to
evaluate the operations on concrete inputs. -/

/-- A sample namespaced list+watchable type key. -/
def gvrA : GroupVersionResource := ⟨"g", "v1", "a"⟩

/-- A second sample type key. -/
def gvrB : GroupVersionResource := ⟨"g", "v1", "b"⟩

/-- A third sample type key. -/
def gvrC : GroupVersionResource := ⟨"g", "v1", "c"⟩

/-- The descriptor reported for gvrA. -/
def resA : APIResource := ⟨"a", true, [("list"), ("watch")]⟩

/-- The descriptor reported for gvrB. -/
def resB : APIResource := ⟨"b", true, [("list"), ("watch")]⟩

/-- The descriptor reported for gvrC. -/
def resC : APIResource := ⟨"c", true, [("list"), ("watch")]⟩

/-- One workspace whose discovery reports types a and b. -/
def envAB : DiscoveryEnv :=
  ⟨.ok [("w")], fun _ => .ok [⟨"g/v1", [resA, resB]⟩], fun _ => false⟩

/-- One workspace whose discovery reports types b and c. -/
def envBC : DiscoveryEnv :=
  ⟨.ok [("w")], fun _ => .ok [⟨"g/v1", [resB, resC]⟩], fun _ => false⟩

/-- The state of a freshly constructed factory. -/
def s0 : FactoryState := ⟨[], [], [], [], false, [], [], 0, 0⟩

/-- The state after one pass against envAB from the fresh factory. -/
def sAB : FactoryState := (discoverTypes envAB s0).2

/-- The state after a further pass against envBC. -/
def sBC : FactoryState := (discoverTypes envBC sAB).2

/-- An environment whose discovery reports type a but where every AddIndexers
call on a new informer fails. -/
def envFailA : DiscoveryEnv :=
  ⟨.ok [("w")], fun _ => .ok [⟨"g/v1", [resA]⟩], fun _ => true⟩

/-- A state with one running non-pinned watch for gvrC. -/
def sHasC : FactoryState :=
  ⟨[(gvrC, ⟨0, false⟩)], [gvrC], [(gvrC, 0)], [], false, [], [], 1, 1⟩

/-- A subresource-shaped descriptor that is nevertheless namespaced and
supports list and watch. -/
def resSub : APIResource := ⟨"a/status", true, [("list"), ("watch")]⟩

/-- An environment reporting only the subresource-shaped descriptor. -/
def envSub : DiscoveryEnv :=
  ⟨.ok [("w")], fun _ => .ok [⟨"g/v1", [resSub]⟩], fun _ => false⟩

/-- An environment with no workspaces at all. -/
def envNone : DiscoveryEnv := ⟨.ok [], fun _ => .ok [], fun _ => false⟩

/-- A state with a synced pinned customresourcedefinitions watch. -/
def sPin : FactoryState :=
  ⟨[(crdGVR, ⟨0, true⟩)], [crdGVR], [(crdGVR, 5)], [], false, [], [], 1, 6⟩

/-- A state holding one synced and one not-yet-synced informer. -/
def sLst : FactoryState :=
  ⟨[(gvrB, ⟨1, true⟩), (gvrC, ⟨2, false⟩)], [gvrB, gvrC], [(gvrB, 0), (gvrC, 1)],
    [], false, [], [], 3, 2⟩

/-- An operation sequence: an InformerForResource call then a discovery pass. -/
def ops9 : List FactoryOp := [.informerFor (fun _ => false) gvrC, .discover envBC]

/-- An environment whose workspace listing fails. -/
def envWsErr : DiscoveryEnv := ⟨.error ("boom"), fun _ => .ok [], fun _ => false⟩

/-- An environment whose only workspace's discovery call fails. -/
def envDiscoErr : DiscoveryEnv := ⟨.ok [("w")], fun _ => .error ("down"), fun _ => false⟩

/-! ## Association list lemmas -/

theorem lookupA_cons {α β : Type} [DecidableEq α] (a : α) (b : β) (t : List (α × β)) (k : α) :
    lookupA ((a, b) :: t) k = if a = k then some b else lookupA t k := rfl

theorem lookupA_append_some {α β : Type} [DecidableEq α] {l1 l2 : List (α × β)} {k : α} {v : β}
    (h : lookupA l1 k = some v) : lookupA (l1 ++ l2) k = some v := by
  induction l1 with
  | nil => simp [lookupA] at h
  | cons p t ih =>
    obtain ⟨a, b⟩ := p
    rw [List.cons_append, lookupA_cons]
    rw [lookupA_cons] at h
    by_cases hak : a = k
    · simpa [hak] using h
    · rw [if_neg hak] at h ⊢
      exact ih h

theorem lookupA_append_none {α β : Type} [DecidableEq α] {l1 : List (α × β)}
    (l2 : List (α × β)) {k : α} (h : lookupA l1 k = none) :
    lookupA (l1 ++ l2) k = lookupA l2 k := by
  induction l1 with
  | nil => simp
  | cons p t ih =>
    obtain ⟨a, b⟩ := p
    rw [List.cons_append, lookupA_cons]
    rw [lookupA_cons] at h
    by_cases hak : a = k
    · simp [hak] at h
    · rw [if_neg hak] at h ⊢
      exact ih h

theorem lookupA_isSome_iff {α β : Type} [DecidableEq α] (l : List (α × β)) (k : α) :
    (lookupA l k).isSome ↔ k ∈ l.map Prod.fst := by
  induction l with
  | nil => simp [lookupA]
  | cons p t ih =>
    obtain ⟨a, b⟩ := p
    by_cases hak : a = k
    · subst hak
      simp [lookupA_cons]
    · simp [lookupA_cons, hak, ih, Ne.symm hak]

theorem lookupA_none_iff {α β : Type} [DecidableEq α] (l : List (α × β)) (k : α) :
    lookupA l k = none ↔ k ∉ l.map Prod.fst := by
  rw [← lookupA_isSome_iff]
  cases h : lookupA l k <;> simp

theorem mem_of_lookupA_some {α β : Type} [DecidableEq α] {l : List (α × β)} {k : α} {v : β}
    (h : lookupA l k = some v) : (k, v) ∈ l := by
  induction l with
  | nil => simp [lookupA] at h
  | cons p t ih =>
    obtain ⟨a, b⟩ := p
    rw [lookupA_cons] at h
    by_cases hak : a = k
    · subst hak
      rw [if_pos rfl] at h
      cases h
      exact List.mem_cons_self _ _
    · rw [if_neg hak] at h
      exact List.mem_cons_of_mem _ (ih h)

theorem eraseA_cons {α β : Type} [DecidableEq α] (a : α) (b : β) (t : List (α × β)) (k : α) :
    eraseA ((a, b) :: t) k = if a = k then eraseA t k else (a, b) :: eraseA t k := by
  by_cases hak : a = k <;> simp [eraseA, List.filter_cons, hak]

theorem lookupA_eraseA_self {α β : Type} [DecidableEq α] (l : List (α × β)) (k : α) :
    lookupA (eraseA l k) k = none := by
  induction l with
  | nil => rfl
  | cons p t ih =>
    obtain ⟨a, b⟩ := p
    rw [eraseA_cons]
    by_cases hak : a = k
    · rw [if_pos hak]
      exact ih
    · rw [if_neg hak, lookupA_cons, if_neg hak]
      exact ih

theorem lookupA_eraseA_ne {α β : Type} [DecidableEq α] (l : List (α × β)) {j k : α}
    (h : j ≠ k) : lookupA (eraseA l k) j = lookupA l j := by
  induction l with
  | nil => rfl
  | cons p t ih =>
    obtain ⟨a, b⟩ := p
    rw [eraseA_cons, lookupA_cons]
    by_cases hak : a = k
    · subst hak
      rw [if_pos rfl, if_neg (fun hh => h hh.symm)]
      exact ih
    · rw [if_neg hak, lookupA_cons]
      by_cases haj : a = j
      · rw [if_pos haj, if_pos haj]
      · rw [if_neg haj, if_neg haj]
        exact ih

theorem lookupA_updateA_self {α β : Type} [DecidableEq α] (l : List (α × β)) (k : α) (v : β) :
    lookupA (updateA l k v) k = some v := by
  unfold updateA
  rw [lookupA_append_none _ (lookupA_eraseA_self l k), lookupA_cons, if_pos rfl]

theorem lookupA_updateA_ne {α β : Type} [DecidableEq α] (l : List (α × β)) {j k : α} (v : β)
    (h : j ≠ k) : lookupA (updateA l k v) j = lookupA l j := by
  unfold updateA
  cases he : lookupA (eraseA l k) j with
  | some w =>
    rw [lookupA_append_some he]
    rw [lookupA_eraseA_ne l h] at he
    exact he.symm
  | none =>
    rw [lookupA_append_none _ he, lookupA_cons, if_neg (fun hh => h hh.symm)]
    rw [lookupA_eraseA_ne l h] at he
    exact he.symm

theorem nodup_append_single {α : Type} {l : List α} {a : α}
    (hnd : l.Nodup) (ha : a ∉ l) : (l ++ [a]).Nodup := by
  simp [List.nodup_append, hnd, ha]

theorem pair_eq_of_nodup_snd {α β : Type} {l : List (α × β)} {a b : α} {c : β}
    (hnd : (l.map Prod.snd).Nodup) (ha : (a, c) ∈ l) (hb : (b, c) ∈ l) : a = b := by
  induction l with
  | nil => cases ha
  | cons p t ih =>
    simp only [List.map_cons, List.nodup_cons] at hnd
    rcases List.mem_cons.mp ha with h1 | h1 <;> rcases List.mem_cons.mp hb with h2 | h2
    · rw [← h1] at h2
      cases h2
      rfl
    · exact absurd (List.mem_map_of_mem Prod.snd h2) (by rw [← h1] at hnd; exact hnd.1)
    · exact absurd (List.mem_map_of_mem Prod.snd h1) (by rw [← h2] at hnd; exact hnd.1)
    · exact ih hnd.2 h1 h2

theorem takeWhile_congr {α : Type} {p q : α → Bool} {l : List α}
    (h : ∀ x ∈ l, p x = q x) : l.takeWhile p = l.takeWhile q := by
  induction l with
  | nil => rfl
  | cons a t ih =>
    simp only [List.takeWhile_cons]
    rw [h a (List.mem_cons_self a t)]
    split
    · rw [ih (fun x hx => h x (List.mem_cons_of_mem a hx))]
    · rfl

/-! ## Diff-set characterizations -/

theorem mem_toAdd (informers : List (GroupVersionResource × GenericInformer))
    (latest : List GroupVersionResource) (g : GroupVersionResource) :
    g ∈ (calculateInformersLockHeld informers latest).1 ↔
      g ∈ latest ∧ lookupA informers g = none := by
  simp [calculateInformersLockHeld, List.mem_filter]

theorem mem_toRemove (informers : List (GroupVersionResource × GenericInformer))
    (latest : List GroupVersionResource) (g : GroupVersionResource) :
    g ∈ (calculateInformersLockHeld informers latest).2 ↔
      g ∈ informers.map Prod.fst ∧ ¬ pinned g ∧ g ∉ latest := by
  simp [calculateInformersLockHeld, List.mem_filter, and_assoc]

/-! ## informerForResourceLockHeld lemmas -/

theorem lookupA_append_isSome_elim {α β : Type} [DecidableEq α] {l : List (α × β)} {k g : α}
    {v : β} (h : (lookupA (l ++ [(k, v)]) g).isSome) :
    (lookupA l g).isSome ∨ g = k := by
  cases hl : lookupA l g with
  | some w => exact Or.inl (by simp [hl])
  | none =>
    rw [lookupA_append_none _ hl, lookupA_cons] at h
    by_cases hkg : k = g
    · exact Or.inr hkg.symm
    · rw [if_neg hkg] at h
      simp [lookupA] at h

theorem iLH_some (fail : GroupVersionResource → Bool) (gvr : GroupVersionResource)
    (s : FactoryState) (inf : GenericInformer) (h : lookupA s.informers gvr = some inf) :
    informerForResourceLockHeld fail gvr s = (.ok inf, s) := by
  simp [informerForResourceLockHeld, h]

theorem iLH_frame (fail : GroupVersionResource → Bool) (gvr : GroupVersionResource)
    (s : FactoryState) :
    (informerForResourceLockHeld fail gvr s).2.informerStops = s.informerStops ∧
    (informerForResourceLockHeld fail gvr s).2.closedChans = s.closedChans ∧
    (informerForResourceLockHeld fail gvr s).2.startedInformers = s.startedInformers ∧
    (informerForResourceLockHeld fail gvr s).2.nextChan = s.nextChan ∧
    ((informerForResourceLockHeld fail gvr s).2.informers = s.informers ∨
      (lookupA s.informers gvr = none ∧
        (informerForResourceLockHeld fail gvr s).2.informers =
          s.informers ++ [(gvr, ⟨s.nextId, false⟩)])) := by
  unfold informerForResourceLockHeld
  cases h : lookupA s.informers gvr with
  | some inf => simp
  | none =>
    by_cases hf : fail gvr <;> simp [hf, h]

theorem iLH_informers_some (fail : GroupVersionResource → Bool) (gvr : GroupVersionResource)
    (s : FactoryState) (g : GroupVersionResource) (v : GenericInformer)
    (h : lookupA s.informers g = some v) :
    lookupA (informerForResourceLockHeld fail gvr s).2.informers g = some v := by
  rcases (iLH_frame fail gvr s).2.2.2.2 with he | ⟨hn, he⟩
  · rw [he]
    exact h
  · rw [he]
    exact lookupA_append_some h

theorem iLH_ok_lookup (fail : GroupVersionResource → Bool) (gvr : GroupVersionResource)
    (s s1 : FactoryState) (inf : GenericInformer)
    (h : informerForResourceLockHeld fail gvr s = (.ok inf, s1)) :
    lookupA s1.informers gvr = some inf := by
  unfold informerForResourceLockHeld at h
  cases hl : lookupA s.informers gvr with
  | some inf0 =>
    rw [hl] at h
    simp at h
    rw [← h.2, hl, h.1]
  | none =>
    rw [hl] at h
    by_cases hf : fail gvr
    · simp [hf] at h
    · simp [hf] at h
      rw [← h.2, lookupA_append_none _ hl, lookupA_cons, if_pos rfl, h.1]

theorem iLH_error (fail : GroupVersionResource → Bool) (gvr : GroupVersionResource)
    (s s1 : FactoryState) (e : String)
    (h : informerForResourceLockHeld fail gvr s = (.error e, s1)) :
    fail gvr = true ∧ lookupA s.informers gvr = none ∧ s1.informers = s.informers := by
  unfold informerForResourceLockHeld at h
  cases hl : lookupA s.informers gvr with
  | some inf0 =>
    rw [hl] at h
    simp at h
  | none =>
    rw [hl] at h
    by_cases hf : fail gvr
    · simp [hf] at h
      exact ⟨hf, rfl, by rw [← h.2]⟩
    · simp [hf] at h

theorem iLH_nodup (fail : GroupVersionResource → Bool) (gvr : GroupVersionResource)
    (s : FactoryState) (h : (s.informers.map Prod.fst).Nodup) :
    ((informerForResourceLockHeld fail gvr s).2.informers.map Prod.fst).Nodup := by
  rcases (iLH_frame fail gvr s).2.2.2.2 with he | ⟨hn, he⟩
  · rw [he]
    exact h
  · rw [he, List.map_append]
    exact nodup_append_single h ((lookupA_none_iff _ _).mp hn)

/-! ## processAdds equation and frame lemmas -/

theorem processAdds_cons_error (fail : GroupVersionResource → Bool)
    (gvr : GroupVersionResource) (rest : List GroupVersionResource) (s s1 : FactoryState)
    (e : String) (h : informerForResourceLockHeld fail gvr s = (.error e, s1)) :
    processAdds fail (gvr :: rest) s = (.error e, s1) := by
  unfold processAdds
  rw [h]

theorem processAdds_cons_ok (fail : GroupVersionResource → Bool)
    (gvr : GroupVersionResource) (rest : List GroupVersionResource) (s s1 : FactoryState)
    (inf : GenericInformer) (h : informerForResourceLockHeld fail gvr s = (.ok inf, s1)) :
    processAdds fail (gvr :: rest) s = processAdds fail rest (startOne gvr s1) := by
  conv_lhs => rw [processAdds]
  rw [h]

theorem startOne_informers (gvr : GroupVersionResource) (s : FactoryState) :
    (startOne gvr s).informers = s.informers := rfl

theorem startOne_closed (gvr : GroupVersionResource) (s : FactoryState) :
    (startOne gvr s).closedChans = s.closedChans := rfl

theorem startOne_stops (gvr : GroupVersionResource) (s : FactoryState) :
    (startOne gvr s).informerStops = updateA s.informerStops gvr s.nextChan := rfl

theorem removeOne_informers (gvr : GroupVersionResource) (s : FactoryState) :
    (removeOne gvr s).informers = eraseA s.informers gvr := by
  unfold removeOne
  cases h : lookupA s.informerStops gvr <;> simp [h]

theorem removeOne_stops (gvr : GroupVersionResource) (s : FactoryState) :
    (removeOne gvr s).informerStops = eraseA s.informerStops gvr := by
  unfold removeOne
  cases h : lookupA s.informerStops gvr <;> simp [h]

theorem removeOne_closed_some (gvr : GroupVersionResource) (s : FactoryState) (ch : Nat)
    (h : lookupA s.informerStops gvr = some ch) :
    (removeOne gvr s).closedChans = s.closedChans ++ [ch] := by
  unfold removeOne
  simp [h]

theorem removeOne_closed_none (gvr : GroupVersionResource) (s : FactoryState)
    (h : lookupA s.informerStops gvr = none) :
    (removeOne gvr s).closedChans = s.closedChans := by
  unfold removeOne
  simp [h]

theorem pA_closed (fail : GroupVersionResource → Bool) (l : List GroupVersionResource) :
    ∀ s : FactoryState, (processAdds fail l s).2.closedChans = s.closedChans := by
  induction l with
  | nil => intro s; rfl
  | cons gvr rest ih =>
    intro s
    cases hi : informerForResourceLockHeld fail gvr s with
    | mk r s1 =>
      have hcl : s1.closedChans = s.closedChans := by
        have h0 := (iLH_frame fail gvr s).2.1
        rw [hi] at h0
        exact h0
      cases r with
      | error e => rw [processAdds_cons_error fail gvr rest s s1 e hi]; exact hcl
      | ok inf =>
        rw [processAdds_cons_ok fail gvr rest s s1 inf hi, ih]
        rw [startOne_closed]
        exact hcl

theorem pA_informers_some (fail : GroupVersionResource → Bool) (l : List GroupVersionResource) :
    ∀ (s : FactoryState) (g : GroupVersionResource) (v : GenericInformer),
      lookupA s.informers g = some v →
      lookupA (processAdds fail l s).2.informers g = some v := by
  induction l with
  | nil => intro s g v h; exact h
  | cons gvr rest ih =>
    intro s g v h
    cases hi : informerForResourceLockHeld fail gvr s with
    | mk r s1 =>
      have hsome : lookupA s1.informers g = some v := by
        have h0 := iLH_informers_some fail gvr s g v h
        rw [hi] at h0
        exact h0
      cases r with
      | error e => rw [processAdds_cons_error fail gvr rest s s1 e hi]; exact hsome
      | ok inf =>
        rw [processAdds_cons_ok fail gvr rest s s1 inf hi]
        exact ih (startOne gvr s1) g v (by rw [startOne_informers]; exact hsome)

theorem pA_informers_isSome (fail : GroupVersionResource → Bool) (l : List GroupVersionResource)
    (s : FactoryState) (g : GroupVersionResource)
    (h : (lookupA s.informers g).isSome) :
    (lookupA (processAdds fail l s).2.informers g).isSome := by
  cases hl : lookupA s.informers g with
  | none => rw [hl] at h; simp at h
  | some v => rw [pA_informers_some fail l s g v hl]; rfl

theorem pA_stops_notmem (fail : GroupVersionResource → Bool) (l : List GroupVersionResource) :
    ∀ (s : FactoryState) (g : GroupVersionResource), g ∉ l →
      lookupA (processAdds fail l s).2.informerStops g = lookupA s.informerStops g := by
  induction l with
  | nil => intro s g _; rfl
  | cons gvr rest ih =>
    intro s g hg
    have hgg : g ≠ gvr := fun hh => hg (hh ▸ List.mem_cons_self gvr rest)
    have hgr : g ∉ rest := fun hh => hg (List.mem_cons_of_mem gvr hh)
    cases hi : informerForResourceLockHeld fail gvr s with
    | mk r s1 =>
      have hst : s1.informerStops = s.informerStops := by
        have h0 := (iLH_frame fail gvr s).1
        rw [hi] at h0
        exact h0
      cases r with
      | error e => rw [processAdds_cons_error fail gvr rest s s1 e hi]; rw [hst]
      | ok inf =>
        rw [processAdds_cons_ok fail gvr rest s s1 inf hi, ih (startOne gvr s1) g hgr]
        rw [startOne_stops, lookupA_updateA_ne _ _ hgg, hst]

theorem pA_ok_mem (fail : GroupVersionResource → Bool) (l : List GroupVersionResource) :
    ∀ (s s2 : FactoryState) (u : Unit), processAdds fail l s = (.ok u, s2) →
      ∀ g : GroupVersionResource, g ∈ l → (lookupA s2.informers g).isSome := by
  induction l with
  | nil => intro s s2 u h g hg; cases hg
  | cons gvr rest ih =>
    intro s s2 u h g hg
    cases hi : informerForResourceLockHeld fail gvr s with
    | mk r s1 =>
      cases r with
      | error e =>
        rw [processAdds_cons_error fail gvr rest s s1 e hi] at h
        simp at h
      | ok inf =>
        rw [processAdds_cons_ok fail gvr rest s s1 inf hi] at h
        rcases List.mem_cons.mp hg with rfl | hgr
        · have hl1 : lookupA (startOne g s1).informers g = some inf := by
            rw [startOne_informers]
            exact iLH_ok_lookup fail g s s1 inf hi
          have hpre := pA_informers_isSome fail rest (startOne g s1) g (by rw [hl1]; rfl)
          rw [h] at hpre
          exact hpre
        · exact ih _ _ _ h g hgr

theorem pA_dom (fail : GroupVersionResource → Bool) (l : List GroupVersionResource) :
    ∀ (s : FactoryState) (g : GroupVersionResource),
      (lookupA (processAdds fail l s).2.informers g).isSome →
      (lookupA s.informers g).isSome ∨ g ∈ l := by
  induction l with
  | nil => intro s g h; exact Or.inl h
  | cons gvr rest ih =>
    intro s g h
    cases hi : informerForResourceLockHeld fail gvr s with
    | mk r s1 =>
      have hfr : s1.informers = s.informers ∨
          (lookupA s.informers gvr = none ∧
            s1.informers = s.informers ++ [(gvr, ⟨s.nextId, false⟩)]) := by
        have h0 := (iLH_frame fail gvr s).2.2.2.2
        rw [hi] at h0
        exact h0
      have hstep : ∀ hs1 : (lookupA s1.informers g).isSome,
          (lookupA s.informers g).isSome ∨ g ∈ gvr :: rest := by
        intro hs1
        rcases hfr with he | ⟨hn, he⟩
        · rw [he] at hs1
          exact Or.inl hs1
        · rw [he] at hs1
          rcases lookupA_append_isSome_elim hs1 with h1 | h1
          · exact Or.inl h1
          · exact Or.inr (h1 ▸ List.mem_cons_self gvr rest)
      cases r with
      | error e =>
        rw [processAdds_cons_error fail gvr rest s s1 e hi] at h
        exact hstep h
      | ok inf =>
        rw [processAdds_cons_ok fail gvr rest s s1 inf hi] at h
        rcases ih (startOne gvr s1) g h with h1 | h1
        · rw [startOne_informers] at h1
          exact hstep h1
        · exact Or.inr (List.mem_cons_of_mem gvr h1)

theorem pA_nodup (fail : GroupVersionResource → Bool) (l : List GroupVersionResource) :
    ∀ s : FactoryState, (s.informers.map Prod.fst).Nodup →
      ((processAdds fail l s).2.informers.map Prod.fst).Nodup := by
  induction l with
  | nil => intro s h; exact h
  | cons gvr rest ih =>
    intro s h
    cases hi : informerForResourceLockHeld fail gvr s with
    | mk r s1 =>
      have hnd : (s1.informers.map Prod.fst).Nodup := by
        have h0 := iLH_nodup fail gvr s h
        rw [hi] at h0
        exact h0
      cases r with
      | error e => rw [processAdds_cons_error fail gvr rest s s1 e hi]; exact hnd
      | ok inf =>
        rw [processAdds_cons_ok fail gvr rest s s1 inf hi]
        exact ih (startOne gvr s1) (by rw [startOne_informers]; exact hnd)

theorem pA_error_mem (fail : GroupVersionResource → Bool) (l : List GroupVersionResource) :
    ∀ (s s2 : FactoryState) (e : String), processAdds fail l s = (.error e, s2) →
      ∃ g, g ∈ l ∧ fail g = true := by
  induction l with
  | nil => intro s s2 e h; simp [processAdds] at h
  | cons gvr rest ih =>
    intro s s2 e h
    cases hi : informerForResourceLockHeld fail gvr s with
    | mk r s1 =>
      cases r with
      | error e0 =>
        exact ⟨gvr, List.mem_cons_self gvr rest, (iLH_error fail gvr s s1 e0 hi).1⟩
      | ok inf =>
        rw [processAdds_cons_ok fail gvr rest s s1 inf hi] at h
        rcases ih _ _ _ h with ⟨g, hg, hf⟩
        exact ⟨g, List.mem_cons_of_mem gvr hg, hf⟩

/-! ## processRemoves lemmas -/

theorem pR_informers_lookup (l : List GroupVersionResource) :
    ∀ (s : FactoryState) (g : GroupVersionResource),
      lookupA (processRemoves l s).informers g =
        if g ∈ l then none else lookupA s.informers g := by
  induction l with
  | nil => intro s g; simp [processRemoves]
  | cons gvr rest ih =>
    intro s g
    show lookupA (processRemoves rest (removeOne gvr s)).informers g = _
    rw [ih]
    by_cases hgr : g ∈ rest
    · simp [hgr, List.mem_cons]
    · rw [if_neg hgr, removeOne_informers]
      by_cases hgg : g = gvr
      · subst hgg
        rw [lookupA_eraseA_self, if_pos (List.mem_cons_self g rest)]
      · rw [lookupA_eraseA_ne _ hgg,
          if_neg (fun hh => (List.mem_cons.mp hh).elim hgg hgr)]

theorem pR_stops_lookup (l : List GroupVersionResource) :
    ∀ (s : FactoryState) (g : GroupVersionResource),
      lookupA (processRemoves l s).informerStops g =
        if g ∈ l then none else lookupA s.informerStops g := by
  induction l with
  | nil => intro s g; simp [processRemoves]
  | cons gvr rest ih =>
    intro s g
    show lookupA (processRemoves rest (removeOne gvr s)).informerStops g = _
    rw [ih]
    by_cases hgr : g ∈ rest
    · simp [hgr, List.mem_cons]
    · rw [if_neg hgr, removeOne_stops]
      by_cases hgg : g = gvr
      · subst hgg
        rw [lookupA_eraseA_self, if_pos (List.mem_cons_self g rest)]
      · rw [lookupA_eraseA_ne _ hgg,
          if_neg (fun hh => (List.mem_cons.mp hh).elim hgg hgr)]

theorem pR_closed_sub (l : List GroupVersionResource) :
    ∀ (s : FactoryState) (ch : Nat), ch ∈ (processRemoves l s).closedChans →
      ch ∈ s.closedChans ∨ ∃ g, g ∈ l ∧ lookupA s.informerStops g = some ch := by
  induction l with
  | nil => intro s ch h; exact Or.inl h
  | cons gvr rest ih =>
    intro s ch h
    have h2 : ch ∈ (processRemoves rest (removeOne gvr s)).closedChans := h
    rcases ih (removeOne gvr s) ch h2 with hc | ⟨g, hg, hgl⟩
    · cases hstop : lookupA s.informerStops gvr with
      | some ch0 =>
        rw [removeOne_closed_some gvr s ch0 hstop] at hc
        rcases List.mem_append.mp hc with h1 | h1
        · exact Or.inl h1
        · have : ch = ch0 := by simpa using h1
          exact Or.inr ⟨gvr, List.mem_cons_self gvr rest, by rw [hstop, this]⟩
      | none =>
        rw [removeOne_closed_none gvr s hstop] at hc
        exact Or.inl hc
    · rw [removeOne_stops] at hgl
      by_cases hgg : g = gvr
      · subst hgg
        rw [lookupA_eraseA_self] at hgl
        cases hgl
      · rw [lookupA_eraseA_ne _ hgg] at hgl
        exact Or.inr ⟨g, List.mem_cons_of_mem gvr hg, hgl⟩

theorem nodup_keys_eraseA {α β : Type} [DecidableEq α] (l : List (α × β)) (k : α)
    (h : (l.map Prod.fst).Nodup) : ((eraseA l k).map Prod.fst).Nodup :=
  ((List.filter_sublist l).map Prod.fst).nodup h

theorem pR_nodup (l : List GroupVersionResource) :
    ∀ s : FactoryState, (s.informers.map Prod.fst).Nodup →
      ((processRemoves l s).informers.map Prod.fst).Nodup := by
  induction l with
  | nil => intro s h; exact h
  | cons gvr rest ih =>
    intro s h
    show ((processRemoves rest (removeOne gvr s)).informers.map Prod.fst).Nodup
    exact ih _ (by rw [removeOne_informers]; exact nodup_keys_eraseA s.informers gvr h)

/-! ## reconcile and discoverTypes lemmas -/

theorem reconcile_empty (fail : GroupVersionResource → Bool)
    (latest : List GroupVersionResource) (s : FactoryState)
    (h : calculateInformersLockHeld s.informers latest = ([], [])) :
    reconcile fail latest s = (.ok (), s) := by
  simp [reconcile, h]

theorem reconcile_ok_elim (fail : GroupVersionResource → Bool)
    (latest : List GroupVersionResource) (s s2 : FactoryState) (u : Unit)
    (h : reconcile fail latest s = (.ok u, s2)) :
    (calculateInformersLockHeld s.informers latest = ([], []) ∧ s2 = s) ∨
    (∃ s1, processAdds fail (calculateInformersLockHeld s.informers latest).1 s = (.ok (), s1) ∧
      s2 = processRemoves (calculateInformersLockHeld s.informers latest).2 s1) := by
  simp only [reconcile] at h
  by_cases hc : ((calculateInformersLockHeld s.informers latest).1.isEmpty &&
      (calculateInformersLockHeld s.informers latest).2.isEmpty) = true
  · rw [if_pos hc] at h
    rcases Bool.and_eq_true_iff.mp hc with ⟨h1, h2⟩
    left
    refine ⟨Prod.ext ?_ ?_, ?_⟩
    · simpa using List.isEmpty_iff.mp h1
    · simpa using List.isEmpty_iff.mp h2
    · cases h
      rfl
  · rw [if_neg hc, if_neg hc] at h
    cases hp : processAdds fail (calculateInformersLockHeld s.informers latest).1 s with
    | mk r s1 =>
      rw [hp] at h
      cases r with
      | error e => simp at h
      | ok v =>
        cases v
        right
        have h2 : ((Except.ok () : Except String Unit),
            processRemoves (calculateInformersLockHeld s.informers latest).2 s1) =
            ((Except.ok u : Except String Unit), s2) := h
        exact ⟨s1, rfl, congrArg Prod.snd h2.symm⟩

theorem reconcile_error_elim (fail : GroupVersionResource → Bool)
    (latest : List GroupVersionResource) (s s2 : FactoryState) (e : String)
    (h : reconcile fail latest s = (.error e, s2)) :
    processAdds fail (calculateInformersLockHeld s.informers latest).1 s = (.error e, s2) := by
  simp only [reconcile] at h
  by_cases hc : ((calculateInformersLockHeld s.informers latest).1.isEmpty &&
      (calculateInformersLockHeld s.informers latest).2.isEmpty) = true
  · rw [if_pos hc] at h
    simp at h
  · rw [if_neg hc, if_neg hc] at h
    cases hp : processAdds fail (calculateInformersLockHeld s.informers latest).1 s with
    | mk r s1 =>
      rw [hp] at h
      cases r with
      | error e0 =>
        have h2 : ((Except.error e0 : Except String Unit), s1) =
            ((Except.error e : Except String Unit), s2) := h
        exact h2
      | ok v => simp at h

theorem dT_error_computeLatest (env : DiscoveryEnv) (s : FactoryState) (e : String)
    (h : computeLatest env = .error e) : discoverTypes env s = (.error e, s) := by
  unfold discoverTypes
  rw [h]

theorem dT_ok (env : DiscoveryEnv) (s : FactoryState) (latest : List GroupVersionResource)
    (h : computeLatest env = .ok latest) :
    discoverTypes env s = reconcile env.addIndexersFail latest s := by
  unfold discoverTypes
  rw [h]

theorem foldE_error_of_mem {α β : Type} (f : β → α → Except String β) (l : List α) (a : α)
    (ha : a ∈ l) (hf : ∀ b, ∃ e, f b a = .error e) :
    ∀ b, ∃ e, foldE f b l = .error e := by
  induction l with
  | nil => cases ha
  | cons x t ih =>
    intro b
    rcases List.mem_cons.mp ha with rfl | hat
    · rcases hf b with ⟨e, he⟩
      exact ⟨e, by unfold foldE; rw [he]⟩
    · cases hx : f b x with
      | error e => exact ⟨e, by unfold foldE; rw [hx]⟩
      | ok b2 =>
        rcases ih hat b2 with ⟨e, he⟩
        exact ⟨e, by unfold foldE; rw [hx]; exact he⟩

theorem computeLatest_error_workspaces (env : DiscoveryEnv) (e : String)
    (h : env.workspaces = .error e) : computeLatest env = .error e := by
  unfold computeLatest
  rw [h]

theorem computeLatest_error_disco (env : DiscoveryEnv) (wss : List String) (ws : String)
    (e : String) (hws : env.workspaces = .ok wss) (hmem : ws ∈ wss)
    (hd : env.disco ws = .error e) :
    ∃ e2, computeLatest env = .error e2 := by
  have hf : ∀ b, ∃ e2, addWorkspace env b ws = .error e2 := by
    intro b
    exact ⟨e, by unfold addWorkspace; rw [hd]⟩
  rcases foldE_error_of_mem (addWorkspace env) wss ws hmem hf [] with ⟨e2, he2⟩
  exact ⟨e2, by unfold computeLatest; rw [hws]; exact he2⟩

/-! ## Discovery membership characterization -/

theorem mem_insertGVR (l : List GroupVersionResource) (g x : GroupVersionResource) :
    x ∈ insertGVR l g ↔ x ∈ l ∨ x = g := by
  unfold insertGVR
  by_cases h : g ∈ l
  · rw [if_pos h]
    constructor
    · exact Or.inl
    · rintro (hx | rfl)
      · exact hx
      · exact h
  · rw [if_neg h]
    simp [List.mem_append]

theorem mem_addResources (gv : String × String) (ais : List APIResource) :
    ∀ (acc : List GroupVersionResource) (x : GroupVersionResource),
      x ∈ addResources gv acc ais ↔
        x ∈ acc ∨ ∃ ai, ai ∈ ais ∧ keepResource ai = true ∧ x = ⟨gv.1, gv.2, ai.name⟩ := by
  induction ais with
  | nil => intro acc x; simp [addResources]
  | cons ai rest ih =>
    intro acc x
    show x ∈ addResources gv
      (if keepResource ai then insertGVR acc ⟨gv.1, gv.2, ai.name⟩ else acc) rest ↔ _
    rw [ih]
    by_cases hk : keepResource ai = true
    · rw [if_pos hk, mem_insertGVR]
      constructor
      · rintro ((hx | rfl) | ⟨ai2, h2, hk2, hxx⟩)
        · exact Or.inl hx
        · exact Or.inr ⟨ai, List.mem_cons_self ai rest, hk, rfl⟩
        · exact Or.inr ⟨ai2, List.mem_cons_of_mem ai h2, hk2, hxx⟩
      · rintro (hx | ⟨ai2, h2, hk2, hxx⟩)
        · exact Or.inl (Or.inl hx)
        · rcases List.mem_cons.mp h2 with rfl | h3
          · rw [hxx]
            exact Or.inl (Or.inr rfl)
          · exact Or.inr ⟨ai2, h3, hk2, hxx⟩
    · rw [if_neg hk]
      constructor
      · rintro (hx | ⟨ai2, h2, hk2, hxx⟩)
        · exact Or.inl hx
        · exact Or.inr ⟨ai2, List.mem_cons_of_mem ai h2, hk2, hxx⟩
      · rintro (hx | ⟨ai2, h2, hk2, hxx⟩)
        · exact Or.inl hx
        · rcases List.mem_cons.mp h2 with rfl | h3
          · exact absurd hk2 hk
          · exact Or.inr ⟨ai2, h3, hk2, hxx⟩

theorem mem_foldE_addResourceList (rls : List APIResourceList) :
    ∀ (acc res : List GroupVersionResource), foldE addResourceList acc rls = .ok res →
      ∀ x, x ∈ res ↔ x ∈ acc ∨ ∃ rl, rl ∈ rls ∧ ∃ gv,
        parseGroupVersion rl.groupVersion = some gv ∧ ∃ ai, ai ∈ rl.apiResources ∧
          keepResource ai = true ∧ x = ⟨gv.1, gv.2, ai.name⟩ := by
  induction rls with
  | nil =>
    intro acc res h x
    have hh : acc = res := by simpa [foldE] using h
    subst hh
    simp
  | cons rl rest ih =>
    intro acc res h x
    unfold foldE at h
    cases hrl : addResourceList acc rl with
    | error e =>
      rw [hrl] at h
      simp at h
    | ok acc2 =>
      rw [hrl] at h
      have hmem := ih acc2 res h x
      unfold addResourceList at hrl
      cases hp : parseGroupVersion rl.groupVersion with
      | none =>
        rw [hp] at hrl
        simp at hrl
      | some gv =>
        rw [hp] at hrl
        simp at hrl
        rw [hmem, ← hrl, mem_addResources]
        constructor
        · rintro ((hx | ⟨ai, hai, hk, hxx⟩) | ⟨rl2, h2, hc⟩)
          · exact Or.inl hx
          · exact Or.inr ⟨rl, List.mem_cons_self rl rest, gv, hp, ai, hai, hk, hxx⟩
          · exact Or.inr ⟨rl2, List.mem_cons_of_mem rl h2, hc⟩
        · rintro (hx | ⟨rl2, h2, gv2, hp2, ai, hai, hk, hxx⟩)
          · exact Or.inl (Or.inl hx)
          · rcases List.mem_cons.mp h2 with rfl | h3
            · rw [hp] at hp2
              cases hp2
              exact Or.inl (Or.inr ⟨ai, hai, hk, hxx⟩)
            · exact Or.inr ⟨rl2, h3, gv2, hp2, ai, hai, hk, hxx⟩

theorem mem_foldE_addWorkspace (env : DiscoveryEnv) (wss : List String) :
    ∀ (acc res : List GroupVersionResource), foldE (addWorkspace env) acc wss = .ok res →
      ∀ x, x ∈ res ↔ x ∈ acc ∨ ∃ ws, ws ∈ wss ∧ ∃ rls, env.disco ws = .ok rls ∧
        ∃ rl, rl ∈ rls ∧ ∃ gv, parseGroupVersion rl.groupVersion = some gv ∧
          ∃ ai, ai ∈ rl.apiResources ∧ keepResource ai = true ∧
            x = ⟨gv.1, gv.2, ai.name⟩ := by
  induction wss with
  | nil =>
    intro acc res h x
    have hh : acc = res := by simpa [foldE] using h
    subst hh
    simp
  | cons ws rest ih =>
    intro acc res h x
    unfold foldE at h
    cases hws : addWorkspace env acc ws with
    | error e =>
      rw [hws] at h
      simp at h
    | ok acc2 =>
      rw [hws] at h
      have hmem := ih acc2 res h x
      unfold addWorkspace at hws
      cases hd : env.disco ws with
      | error e =>
        rw [hd] at hws
        simp at hws
      | ok rls =>
        rw [hd] at hws
        have hin := mem_foldE_addResourceList rls acc acc2 hws x
        rw [hmem, hin]
        constructor
        · rintro ((hx | ⟨rl, hrl, hc⟩) | ⟨ws2, h2, hc⟩)
          · exact Or.inl hx
          · exact Or.inr ⟨ws, List.mem_cons_self ws rest, rls, hd, rl, hrl, hc⟩
          · exact Or.inr ⟨ws2, List.mem_cons_of_mem ws h2, hc⟩
        · rintro (hx | ⟨ws2, h2, rls2, hd2, hc⟩)
          · exact Or.inl (Or.inl hx)
          · rcases List.mem_cons.mp h2 with rfl | h3
            · rw [hd] at hd2
              cases hd2
              exact Or.inl (Or.inr hc)
            · exact Or.inr ⟨ws2, h3, rls2, hd2, hc⟩

/-! ## Claim theorems -/

/-- C1: the claim says each AddEventHandler registration preserves all
previously registered listeners and that every listener registered before a
dispatch receives exactly one callback per event.  The source copies the
current handlers into a nil slice (Go's copy fills min(len dst, len src)
elements, here zero) before appending, so each registration replaces the
whole collection with just the new handler.  Evaluating the code at the
failing input: after registering listeners 1 and then 2, the stored
collection is just listener 2, and a dispatched Add event produces exactly
one call to listener 2 and zero calls to listener 1. -/
theorem C1_fanout_drops_earlier_listeners :
    AddEventHandler (AddEventHandler [] 1) 2 = [2] ∧
    dispatchAdd (AddEventHandler (AddEventHandler [] 1) 2) gvrA 0 = [(2, gvrA, 0)] ∧
    (dispatchAdd (AddEventHandler (AddEventHandler [] 1) 2) gvrA 0).countP
      (fun c => decide (c.1 = 1)) = 0 := by
  decide

/-- C6: for every triple of pairwise distinct, non-pinned type keys A, B, C
whose watch creations succeed, running on the fresh factory a discovery
pass whose DiscoveredSet is [A, B] and then one whose DiscoveredSet is
[B, C]: both passes succeed, the running-watch map afterwards holds exactly
the keys B and C, A's watch has been stopped (its stop channel closed) and
its entry deleted, C's watch has been newly created and started, and B's
watch is the very informer object created in the first pass, with its stop
channel untouched. -/
theorem C6_convergence (env1 env2 : DiscoveryEnv) (A B C : GroupVersionResource)
    (hAB : A ≠ B) (hAC : A ≠ C) (hBC : B ≠ C)
    (hpA : ¬ pinned A) (hpB : ¬ pinned B) (hpC : ¬ pinned C)
    (henv1 : computeLatest env1 = .ok [A, B])
    (henv2 : computeLatest env2 = .ok [B, C])
    (hf1A : env1.addIndexersFail A = false) (hf1B : env1.addIndexersFail B = false)
    (hf2C : env2.addIndexersFail C = false) :
    (discoverTypes env1 s0).1 = .ok () ∧
    (discoverTypes env2 (discoverTypes env1 s0).2).1 = .ok () ∧
    (discoverTypes env2 (discoverTypes env1 s0).2).2.informers.map Prod.fst = [B, C] ∧
    lookupA (discoverTypes env2 (discoverTypes env1 s0).2).2.informers A = none ∧
    (∃ ch, lookupA (discoverTypes env1 s0).2.informerStops A = some ch ∧
      ch ∈ (discoverTypes env2 (discoverTypes env1 s0).2).2.closedChans) ∧
    lookupA (discoverTypes env1 s0).2.informers C = none ∧
    (lookupA (discoverTypes env2 (discoverTypes env1 s0).2).2.informers C).isSome = true ∧
    C ∈ (discoverTypes env2 (discoverTypes env1 s0).2).2.startedInformers ∧
    lookupA (discoverTypes env2 (discoverTypes env1 s0).2).2.informers B =
      lookupA (discoverTypes env1 s0).2.informers B ∧
    (lookupA (discoverTypes env2 (discoverTypes env1 s0).2).2.informers B).isSome = true ∧
    lookupA (discoverTypes env2 (discoverTypes env1 s0).2).2.informerStops B =
      lookupA (discoverTypes env1 s0).2.informerStops B := by
  have hBA := Ne.symm hAB
  have hCA := Ne.symm hAC
  have hCB := Ne.symm hBC
  have hA1 : informerForResourceLockHeld env1.addIndexersFail A s0 =
      (.ok ⟨0, false⟩,
        (⟨[(A, ⟨0, false⟩)], [], [], [], false, [], [], 1, 0⟩ : FactoryState)) := by
    simp [informerForResourceLockHeld, lookupA, s0, hf1A]
  have hB1 : informerForResourceLockHeld env1.addIndexersFail B
      (⟨[(A, ⟨0, false⟩)], [A], [(A, 0)], [], false, [], [], 1, 1⟩ : FactoryState) =
      (.ok ⟨1, false⟩,
        (⟨[(A, ⟨0, false⟩), (B, ⟨1, false⟩)], [A], [(A, 0)], [], false, [], [],
          2, 1⟩ : FactoryState)) := by
    simp [informerForResourceLockHeld, lookupA, hAB, hf1B]
  have hadds1 : processAdds env1.addIndexersFail [A, B] s0 =
      (.ok (),
        (⟨[(A, ⟨0, false⟩), (B, ⟨1, false⟩)], [A, B], [(A, 0), (B, 1)], [], false, [], [],
          2, 2⟩ : FactoryState)) := by
    rw [processAdds_cons_ok env1.addIndexersFail A [B] s0 _ _ hA1]
    have hsA : startOne A
        (⟨[(A, ⟨0, false⟩)], [], [], [], false, [], [], 1, 0⟩ : FactoryState) =
        (⟨[(A, ⟨0, false⟩)], [A], [(A, 0)], [], false, [], [], 1, 1⟩ : FactoryState) := by
      simp [startOne, updateA, eraseA]
    rw [hsA, processAdds_cons_ok env1.addIndexersFail B [] _ _ _ hB1]
    have hsB : startOne B
        (⟨[(A, ⟨0, false⟩), (B, ⟨1, false⟩)], [A], [(A, 0)], [], false, [], [],
          2, 1⟩ : FactoryState) =
        (⟨[(A, ⟨0, false⟩), (B, ⟨1, false⟩)], [A, B], [(A, 0), (B, 1)], [], false, [], [],
          2, 2⟩ : FactoryState) := by
      simp [startOne, updateA, eraseA, hAB, hBA]
    rw [hsB]
    rfl
  have hc1 : calculateInformersLockHeld s0.informers [A, B] = ([A, B], []) := by
    simp [calculateInformersLockHeld, lookupA, s0]
  have hr1 : reconcile env1.addIndexersFail [A, B] s0 =
      (.ok (),
        (⟨[(A, ⟨0, false⟩), (B, ⟨1, false⟩)], [A, B], [(A, 0), (B, 1)], [], false, [], [],
          2, 2⟩ : FactoryState)) := by
    simp [reconcile, hc1, hadds1, processRemoves]
  have hd1 : discoverTypes env1 s0 =
      (.ok (),
        (⟨[(A, ⟨0, false⟩), (B, ⟨1, false⟩)], [A, B], [(A, 0), (B, 1)], [], false, [], [],
          2, 2⟩ : FactoryState)) := by
    rw [dT_ok env1 s0 [A, B] henv1]
    exact hr1
  have hC1 : informerForResourceLockHeld env2.addIndexersFail C
      (⟨[(A, ⟨0, false⟩), (B, ⟨1, false⟩)], [A, B], [(A, 0), (B, 1)], [], false, [], [],
        2, 2⟩ : FactoryState) =
      (.ok ⟨2, false⟩,
        (⟨[(A, ⟨0, false⟩), (B, ⟨1, false⟩), (C, ⟨2, false⟩)], [A, B], [(A, 0), (B, 1)],
          [], false, [], [], 3, 2⟩ : FactoryState)) := by
    simp [informerForResourceLockHeld, lookupA, hAC, hBC, hf2C]
  have hadds2 : processAdds env2.addIndexersFail [C]
      (⟨[(A, ⟨0, false⟩), (B, ⟨1, false⟩)], [A, B], [(A, 0), (B, 1)], [], false, [], [],
        2, 2⟩ : FactoryState) =
      (.ok (),
        (⟨[(A, ⟨0, false⟩), (B, ⟨1, false⟩), (C, ⟨2, false⟩)], [A, B, C],
          [(A, 0), (B, 1), (C, 2)], [], false, [], [], 3, 3⟩ : FactoryState)) := by
    rw [processAdds_cons_ok env2.addIndexersFail C [] _ _ _ hC1]
    have hsC : startOne C
        (⟨[(A, ⟨0, false⟩), (B, ⟨1, false⟩), (C, ⟨2, false⟩)], [A, B], [(A, 0), (B, 1)],
          [], false, [], [], 3, 2⟩ : FactoryState) =
        (⟨[(A, ⟨0, false⟩), (B, ⟨1, false⟩), (C, ⟨2, false⟩)], [A, B, C],
          [(A, 0), (B, 1), (C, 2)], [], false, [], [], 3, 3⟩ : FactoryState) := by
      simp [startOne, updateA, eraseA, hAC, hBC, hCA, hCB]
    rw [hsC]
    rfl
  have hc2 : calculateInformersLockHeld
      (⟨[(A, ⟨0, false⟩), (B, ⟨1, false⟩)], [A, B], [(A, 0), (B, 1)], [], false, [], [],
        2, 2⟩ : FactoryState).informers [B, C] = ([C], [A]) := by
    simp [calculateInformersLockHeld, lookupA, hAB, hAC, hBC, hpA]
  have hrem : processRemoves [A]
      (⟨[(A, ⟨0, false⟩), (B, ⟨1, false⟩), (C, ⟨2, false⟩)], [A, B, C],
        [(A, 0), (B, 1), (C, 2)], [], false, [], [], 3, 3⟩ : FactoryState) =
      (⟨[(B, ⟨1, false⟩), (C, ⟨2, false⟩)], [B, C], [(B, 1), (C, 2)], [0], false, [], [],
        3, 3⟩ : FactoryState) := by
    simp [processRemoves, removeOne, lookupA, eraseA, hBA, hCA]
  have hr2 : reconcile env2.addIndexersFail [B, C]
      (⟨[(A, ⟨0, false⟩), (B, ⟨1, false⟩)], [A, B], [(A, 0), (B, 1)], [], false, [], [],
        2, 2⟩ : FactoryState) =
      (.ok (),
        (⟨[(B, ⟨1, false⟩), (C, ⟨2, false⟩)], [B, C], [(B, 1), (C, 2)], [0], false, [], [],
          3, 3⟩ : FactoryState)) := by
    simp [reconcile, hc2, hadds2, hrem]
  have hd2 : discoverTypes env2
      (⟨[(A, ⟨0, false⟩), (B, ⟨1, false⟩)], [A, B], [(A, 0), (B, 1)], [], false, [], [],
        2, 2⟩ : FactoryState) =
      (.ok (),
        (⟨[(B, ⟨1, false⟩), (C, ⟨2, false⟩)], [B, C], [(B, 1), (C, 2)], [0], false, [], [],
          3, 3⟩ : FactoryState)) := by
    rw [dT_ok env2 _ [B, C] henv2]
    exact hr2
  simp only [hd1, hd2]
  refine ⟨?_, ?_, ?_, ?_, ⟨0, ?_, ?_⟩, ?_, ?_, ?_, ?_, ?_, ?_⟩ <;>
    simp [lookupA, hAB, hAC, hBC, hBA, hCA, hCB]

/-- Witness for C6 at the concrete triple gvrA, gvrB, gvrC with the
concrete environments envAB and envBC, discharging every hypothesis. -/
theorem C6_convergence_witness :
    (gvrA ≠ gvrB ∧ gvrA ≠ gvrC ∧ gvrB ≠ gvrC ∧ ¬ pinned gvrA ∧ ¬ pinned gvrB ∧
      ¬ pinned gvrC ∧ computeLatest envAB = .ok [gvrA, gvrB] ∧
      computeLatest envBC = .ok [gvrB, gvrC] ∧ envAB.addIndexersFail gvrA = false ∧
      envAB.addIndexersFail gvrB = false ∧ envBC.addIndexersFail gvrC = false) ∧
    ((discoverTypes envAB s0).1 = .ok () ∧
     (discoverTypes envBC (discoverTypes envAB s0).2).1 = .ok () ∧
     (discoverTypes envBC (discoverTypes envAB s0).2).2.informers.map Prod.fst =
       [gvrB, gvrC] ∧
     lookupA (discoverTypes envBC (discoverTypes envAB s0).2).2.informers gvrA = none ∧
     (∃ ch, lookupA (discoverTypes envAB s0).2.informerStops gvrA = some ch ∧
       ch ∈ (discoverTypes envBC (discoverTypes envAB s0).2).2.closedChans) ∧
     lookupA (discoverTypes envAB s0).2.informers gvrC = none ∧
     (lookupA (discoverTypes envBC (discoverTypes envAB s0).2).2.informers gvrC).isSome =
       true ∧
     gvrC ∈ (discoverTypes envBC (discoverTypes envAB s0).2).2.startedInformers ∧
     lookupA (discoverTypes envBC (discoverTypes envAB s0).2).2.informers gvrB =
       lookupA (discoverTypes envAB s0).2.informers gvrB ∧
     (lookupA (discoverTypes envBC (discoverTypes envAB s0).2).2.informers gvrB).isSome =
       true ∧
     lookupA (discoverTypes envBC (discoverTypes envAB s0).2).2.informerStops gvrB =
       lookupA (discoverTypes envAB s0).2.informerStops gvrB) :=
  ⟨⟨by decide, by decide, by decide, by decide, by decide, by decide, rfl, rfl, rfl, rfl,
    rfl⟩,
   C6_convergence envAB envBC gvrA gvrB gvrC (by decide) (by decide) (by decide)
     (by decide) (by decide) (by decide) rfl rfl rfl rfl rfl⟩

theorem addIndexers_aux :
    ∀ (arg : List (String × Nat)), (arg.map Prod.fst).Nodup →
    ∀ cur : List (String × Nat),
      ((AddIndexers cur arg).1 = none ↔ ∀ p ∈ arg, lookupA cur p.1 = none) ∧
      (AddIndexers cur arg).2 =
        cur ++ arg.takeWhile (fun p => (lookupA cur p.1).isNone) ∧
      (∀ n, (AddIndexers cur arg).1 = some n →
        (lookupA cur n).isSome = true ∧ n ∈ arg.map Prod.fst) := by
  intro arg
  induction arg with
  | nil => intro _ cur; simp [AddIndexers]
  | cons p rest ih =>
    intro hnd cur
    obtain ⟨n, f⟩ := p
    simp only [List.map_cons, List.nodup_cons] at hnd
    by_cases hc : (lookupA cur n).isSome
    · have heq : AddIndexers cur ((n, f) :: rest) = (some n, cur) := by
        unfold AddIndexers
        rw [if_pos hc]
      rw [heq]
      refine ⟨?_, ?_, ?_⟩
      · simp only [reduceCtorEq, false_iff]
        intro hall
        have h2 := hall (n, f) (List.mem_cons_self _ _)
        rw [h2] at hc
        simp at hc
      · have hno : lookupA cur n ≠ none := by
          intro hh
          rw [hh] at hc
          simp at hc
        simp [List.takeWhile_cons, Option.isNone_iff_eq_none, hno]
      · intro m hm
        cases hm
        exact ⟨hc, List.mem_cons_self _ _⟩
    · have hnone : lookupA cur n = none := by
        cases h : lookupA cur n with
        | none => rfl
        | some w => rw [h] at hc; simp at hc
      have heq : AddIndexers cur ((n, f) :: rest) = AddIndexers (cur ++ [(n, f)]) rest := by
        conv_lhs => rw [AddIndexers]
        rw [if_neg hc]
      rw [heq]
      have ihh := ih hnd.2 (cur ++ [(n, f)])
      have htrans : ∀ q ∈ rest, lookupA (cur ++ [(n, f)]) q.1 = lookupA cur q.1 := by
        intro q hq
        have hqn : q.1 ≠ n := by
          intro hh
          exact hnd.1 (hh ▸ List.mem_map_of_mem Prod.fst hq)
        cases hl : lookupA cur q.1 with
        | some w => exact lookupA_append_some hl
        | none =>
          rw [lookupA_append_none _ hl, lookupA_cons, if_neg (fun hh => hqn hh.symm)]
          rfl
      refine ⟨?_, ?_, ?_⟩
      · rw [ihh.1]
        constructor
        · intro hall q hq
          rcases List.mem_cons.mp hq with rfl | hq2
          · exact hnone
          · rw [← htrans q hq2]
            exact hall q hq2
        · intro hall q hq
          rw [htrans q hq]
          exact hall q (List.mem_cons_of_mem _ hq)
      · rw [ihh.2.1, takeWhile_congr (fun q hq => by rw [htrans q hq]),
          List.takeWhile_cons]
        simp [hnone]
      · intro m hm
        rcases ihh.2.2 m hm with ⟨hsome, hmem⟩
        rcases List.mem_map.mp hmem with ⟨q, hq, hq1⟩
        constructor
        · rw [← hq1, ← htrans q hq]
          rw [hq1]
          exact hsome
        · simp only [List.map_cons]
          exact List.mem_cons_of_mem _ hmem

/-- C10: AddIndexers returns an error exactly when some indexer name in the
argument is already registered in the factory; on error the factory keeps
every indexer processed before the conflicting name (the operation is not
atomic on error), and when no name conflicts all indexers are added and nil
is returned.  The argument is the factory's current indexer map followed by
the argument bindings in iteration order (distinct names, as in a Go map). -/
theorem C10_addIndexers_spec (cur arg : List (String × Nat))
    (hnd : (arg.map Prod.fst).Nodup) :
    ((AddIndexers cur arg).1 = none ↔ ∀ p ∈ arg, lookupA cur p.1 = none) ∧
    (AddIndexers cur arg).2 =
      cur ++ arg.takeWhile (fun p => (lookupA cur p.1).isNone) ∧
    (∀ n, (AddIndexers cur arg).1 = some n →
      (lookupA cur n).isSome = true ∧ n ∈ arg.map Prod.fst) :=
  addIndexers_aux arg hnd cur

/-- Witness for C10 at a concrete input: current indexers contain the name
a, and the argument adds b, then the conflicting a, then c; the call errors
on a, keeps b, and never adds c. -/
theorem C10_addIndexers_witness :
    (([(("b"), 1), (("a"), 2), (("c"), 3)].map Prod.fst).Nodup : Prop) ∧
    (((AddIndexers [(("a"), 0)] [(("b"), 1), (("a"), 2), (("c"), 3)]).1 = none ↔
      ∀ p ∈ [(("b"), 1), (("a"), 2), (("c"), 3)], lookupA [(("a"), 0)] p.1 = none) ∧
    (AddIndexers [(("a"), 0)] [(("b"), 1), (("a"), 2), (("c"), 3)]).2 =
      [(("a"), 0)] ++ [(("b"), 1), (("a"), 2), (("c"), 3)].takeWhile
        (fun p => (lookupA [(("a"), 0)] p.1).isNone) ∧
    (∀ n, (AddIndexers [(("a"), 0)] [(("b"), 1), (("a"), 2), (("c"), 3)]).1 = some n →
      (lookupA [(("a"), 0)] n).isSome = true ∧
        n ∈ [(("b"), 1), (("a"), 2), (("c"), 3)].map Prod.fst)) :=
  ⟨by decide, C10_addIndexers_spec [(("a"), 0)] [(("b"), 1), (("a"), 2), (("c"), 3)]
    (by decide)⟩

theorem listersGo_spec (l : List (GroupVersionResource × GenericInformer)) :
    ∀ (acc1 : List (GroupVersionResource × Nat)) (acc2 : List GroupVersionResource),
      (∀ g lid, (g, lid) ∈ (listersGo l acc1 acc2).1 ↔
        (g, lid) ∈ acc1 ∨ ∃ inf, (g, inf) ∈ l ∧ inf.synced = true ∧ lid = listerOf inf) ∧
      (∀ g, g ∈ (listersGo l acc1 acc2).2 ↔
        g ∈ acc2 ∨ ∃ inf, (g, inf) ∈ l ∧ inf.synced = false) := by
  induction l with
  | nil =>
    intro acc1 acc2
    constructor
    · intro g lid
      simp [listersGo]
    · intro g
      simp [listersGo]
  | cons p t ih =>
    intro acc1 acc2
    obtain ⟨gvr, inf⟩ := p
    by_cases hs : inf.synced = true
    · have heq : listersGo ((gvr, inf) :: t) acc1 acc2 =
          listersGo t (acc1 ++ [(gvr, listerOf inf)]) acc2 := by
        conv_lhs => rw [listersGo]
        rw [if_pos hs]
      rw [heq]
      constructor
      · intro g lid
        rw [(ih _ _).1 g lid]
        constructor
        · rintro (h1 | ⟨inf2, h2, h3, h4⟩)
          · rcases List.mem_append.mp h1 with h5 | h5
            · exact Or.inl h5
            · have h6 := List.mem_singleton.mp h5
              injection h6 with ha hb
              exact Or.inr ⟨inf, by rw [ha]; exact List.mem_cons_self _ _, hs, hb⟩
          · exact Or.inr ⟨inf2, List.mem_cons_of_mem _ h2, h3, h4⟩
        · rintro (h1 | ⟨inf2, h2, h3, h4⟩)
          · exact Or.inl (List.mem_append.mpr (Or.inl h1))
          · rcases List.mem_cons.mp h2 with h5 | h5
            · injection h5 with ha hb
              refine Or.inl (List.mem_append.mpr (Or.inr (List.mem_singleton.mpr ?_)))
              rw [ha, h4, hb]
            · exact Or.inr ⟨inf2, h5, h3, h4⟩
      · intro g
        rw [(ih _ _).2 g]
        constructor
        · rintro (h1 | ⟨inf2, h2, h3⟩)
          · exact Or.inl h1
          · exact Or.inr ⟨inf2, List.mem_cons_of_mem _ h2, h3⟩
        · rintro (h1 | ⟨inf2, h2, h3⟩)
          · exact Or.inl h1
          · rcases List.mem_cons.mp h2 with h5 | h5
            · injection h5 with ha hb
              rw [hb] at h3
              rw [h3] at hs
              simp at hs
            · exact Or.inr ⟨inf2, h5, h3⟩
    · have hs2 : inf.synced = false := by
        cases h : inf.synced
        · rfl
        · exact absurd h hs
      have heq : listersGo ((gvr, inf) :: t) acc1 acc2 =
          listersGo t acc1 (acc2 ++ [gvr]) := by
        conv_lhs => rw [listersGo]
        rw [if_neg hs]
      rw [heq]
      constructor
      · intro g lid
        rw [(ih _ _).1 g lid]
        constructor
        · rintro (h1 | ⟨inf2, h2, h3, h4⟩)
          · exact Or.inl h1
          · exact Or.inr ⟨inf2, List.mem_cons_of_mem _ h2, h3, h4⟩
        · rintro (h1 | ⟨inf2, h2, h3, h4⟩)
          · exact Or.inl h1
          · rcases List.mem_cons.mp h2 with h5 | h5
            · injection h5 with ha hb
              rw [hb] at h3
              rw [h3] at hs
              simp at hs
            · exact Or.inr ⟨inf2, h5, h3, h4⟩
      · intro g
        rw [(ih _ _).2 g]
        constructor
        · rintro (h1 | ⟨inf2, h2, h3⟩)
          · rcases List.mem_append.mp h1 with h5 | h5
            · exact Or.inl h5
            · have h6 := List.mem_singleton.mp h5
              exact Or.inr ⟨inf, by rw [h6]; exact List.mem_cons_self _ _, hs2⟩
          · exact Or.inr ⟨inf2, List.mem_cons_of_mem _ h2, h3⟩
        · rintro (h1 | ⟨inf2, h2, h3⟩)
          · exact Or.inl (List.mem_append.mpr (Or.inl h1))
          · rcases List.mem_cons.mp h2 with h5 | h5
            · injection h5 with ha hb
              exact Or.inl (List.mem_append.mpr (Or.inr (List.mem_singleton.mpr ha)))
            · exact Or.inr ⟨inf2, h5, h3⟩

/-- C7: for every registry state, Listers returns in its ready map exactly
the registered informers whose initial sync has completed (paired with
their cache readers), reports every registered informer whose sync has not
completed in notSynced instead, and returns two empty collections when the
factory is terminating. -/
theorem C7_listers_ready_partition (s : FactoryState) :
    (s.terminating = true → Listers s = ([], [])) ∧
    (s.terminating = false →
      (∀ g lid, (g, lid) ∈ (Listers s).1 ↔
        ∃ inf, (g, inf) ∈ s.informers ∧ inf.synced = true ∧ lid = listerOf inf) ∧
      (∀ g, g ∈ (Listers s).2 ↔
        ∃ inf, (g, inf) ∈ s.informers ∧ inf.synced = false)) := by
  constructor
  · intro ht
    simp [Listers, ht]
  · intro ht
    have heq : Listers s = listersGo s.informers [] [] := by simp [Listers, ht]
    rw [heq]
    constructor
    · intro g lid
      rw [(listersGo_spec s.informers [] []).1 g lid]
      simp
    · intro g
      rw [(listersGo_spec s.informers [] []).2 g]
      simp

/-- Witness for C7 at a concrete non-terminating state holding one synced
informer (for gvrB) and one not-yet-synced informer (for gvrC). -/
theorem C7_listers_witness :
    sLst.terminating = false ∧
    ((∀ g lid, (g, lid) ∈ (Listers sLst).1 ↔
      ∃ inf, (g, inf) ∈ sLst.informers ∧ inf.synced = true ∧ lid = listerOf inf) ∧
    (∀ g, g ∈ (Listers sLst).2 ↔
      ∃ inf, (g, inf) ∈ sLst.informers ∧ inf.synced = false)) :=
  ⟨by decide, (C7_listers_ready_partition sLst).2 (by decide)⟩

/-- C8: when listing the workspaces fails, or any single workspace's
discovery call fails, the whole discovery pass aborts before touching the
registry: discoverTypes returns the error and the state is exactly the
state it was given. -/
theorem C8_discovery_failfast (env : DiscoveryEnv) (s : FactoryState) :
    (∀ e, env.workspaces = .error e → discoverTypes env s = (.error e, s)) ∧
    (∀ wss ws e, env.workspaces = .ok wss → ws ∈ wss → env.disco ws = .error e →
      ∃ e2, computeLatest env = .error e2 ∧ discoverTypes env s = (.error e2, s)) := by
  constructor
  · intro e he
    exact dT_error_computeLatest env s e (computeLatest_error_workspaces env e he)
  · intro wss ws e hws hmem hd
    rcases computeLatest_error_disco env wss ws e hws hmem hd with ⟨e2, he2⟩
    exact ⟨e2, he2, dT_error_computeLatest env s e2 he2⟩

/-- Witness for C8: a concrete workspace-listing failure and a concrete
per-tenant discovery failure each abort the pass leaving the registry, with
its running watch for gvrC, exactly as it was. -/
theorem C8_failfast_witness :
    (envWsErr.workspaces = .error ("boom") ∧
      discoverTypes envWsErr sHasC = (.error ("boom"), sHasC)) ∧
    (envDiscoErr.workspaces = .ok [("w")] ∧ ("w") ∈ [("w")] ∧
      envDiscoErr.disco ("w") = .error ("down") ∧
      ∃ e2, computeLatest envDiscoErr = .error e2 ∧
        discoverTypes envDiscoErr sHasC = (.error e2, sHasC)) :=
  ⟨⟨rfl, (C8_discovery_failfast envWsErr sHasC).1 ("boom") rfl⟩,
   ⟨rfl, by decide, rfl,
    (C8_discovery_failfast envDiscoErr sHasC).2 [("w")] ("w") ("down") rfl (by decide) rfl⟩⟩

theorem reconcile_nodup (fail : GroupVersionResource → Bool)
    (latest : List GroupVersionResource) (s : FactoryState)
    (h : (s.informers.map Prod.fst).Nodup) :
    (((reconcile fail latest s).2).informers.map Prod.fst).Nodup := by
  cases hr : reconcile fail latest s with
  | mk r s2 =>
    cases r with
    | ok u =>
      rcases reconcile_ok_elim fail latest s s2 u hr with ⟨hc, rfl⟩ | ⟨s1, hp, rfl⟩
      · exact h
      · apply pR_nodup
        have hs1 : s1 = (processAdds fail (calculateInformersLockHeld s.informers latest).1 s).2 := by
          rw [hp]
        rw [hs1]
        exact pA_nodup fail _ s h
    | error e =>
      have hp := reconcile_error_elim fail latest s s2 e hr
      have hs2 : s2 = (processAdds fail (calculateInformersLockHeld s.informers latest).1 s).2 := by
        rw [hp]
      rw [hs2]
      exact pA_nodup fail _ s h

theorem applyOp_nodup (s : FactoryState) (op : FactoryOp)
    (h : (s.informers.map Prod.fst).Nodup) :
    ((applyOp s op).informers.map Prod.fst).Nodup := by
  cases op with
  | informerFor fail gvr =>
    show (((InformerForResource fail gvr s).2).informers.map Prod.fst).Nodup
    unfold InformerForResource
    cases hl : lookupA s.informers gvr with
    | some inf => exact h
    | none => exact iLH_nodup fail gvr s h
  | discover env =>
    show (((discoverTypes env s).2).informers.map Prod.fst).Nodup
    unfold discoverTypes
    cases hcl : computeLatest env with
    | error e => exact h
    | ok latest => exact reconcile_nodup env.addIndexersFail latest s h

/-- C9: at most one informer exists per type key: a request for a key that
already has an informer returns exactly that informer with the state
unchanged, both on the read-locked fast path and on the re-check under the
write lock (so no second copy is created or stored), and every interleaving
of InformerForResource calls and discovery passes keeps the informer map's
keys distinct. -/
theorem C9_at_most_one_informer :
    (∀ (fail : GroupVersionResource → Bool) (gvr : GroupVersionResource)
        (s : FactoryState) (inf : GenericInformer),
      lookupA s.informers gvr = some inf →
        InformerForResource fail gvr s = (.ok inf, s) ∧
        informerForResourceLockHeld fail gvr s = (.ok inf, s)) ∧
    (∀ (s : FactoryState) (ops : List FactoryOp), (s.informers.map Prod.fst).Nodup →
      ((runOps s ops).informers.map Prod.fst).Nodup) := by
  constructor
  · intro fail gvr s inf h
    constructor
    · simp [InformerForResource, h]
    · exact iLH_some fail gvr s inf h
  · intro s ops
    induction ops generalizing s with
    | nil => intro h; exact h
    | cons op rest ih =>
      intro h
      show ((runOps (applyOp s op) rest).informers.map Prod.fst).Nodup
      exact ih (applyOp s op) (applyOp_nodup s op h)

/-- Witness for C9: in the concrete state after the first discovery pass,
asking again for the gvrA informer returns the existing one (identity 0)
with the state unchanged, and a further InformerForResource call followed
by a discovery pass keeps the keys distinct. -/
theorem C9_at_most_one_witness :
    lookupA sAB.informers gvrA = some ⟨0, false⟩ ∧
    (InformerForResource (fun _ => false) gvrA sAB = (.ok ⟨0, false⟩, sAB) ∧
      informerForResourceLockHeld (fun _ => false) gvrA sAB = (.ok ⟨0, false⟩, sAB)) ∧
    (sAB.informers.map Prod.fst).Nodup ∧
    ((runOps sAB ops9).informers.map Prod.fst).Nodup :=
  ⟨by decide,
   C9_at_most_one_informer.1 (fun _ => false) gvrA sAB ⟨0, false⟩ (by decide),
   by decide,
   C9_at_most_one_informer.2 sAB ops9 (by decide)⟩

theorem reconcile_state_cases (fail : GroupVersionResource → Bool)
    (latest : List GroupVersionResource) (s : FactoryState) :
    (reconcile fail latest s).2 = s ∨
    (reconcile fail latest s).2 =
      processRemoves (calculateInformersLockHeld s.informers latest).2
        (processAdds fail (calculateInformersLockHeld s.informers latest).1 s).2 ∨
    (reconcile fail latest s).2 =
      (processAdds fail (calculateInformersLockHeld s.informers latest).1 s).2 := by
  cases hr : reconcile fail latest s with
  | mk r s2 =>
    show s2 = s ∨ s2 = _ ∨ s2 = _
    cases r with
    | ok u =>
      rcases reconcile_ok_elim fail latest s s2 u hr with ⟨hc, h2⟩ | ⟨s1, hp, h2⟩
      · exact Or.inl h2
      · refine Or.inr (Or.inl ?_)
        rw [hp]
        exact h2
    | error e =>
      have hp := reconcile_error_elim fail latest s s2 e hr
      refine Or.inr (Or.inr ?_)
      rw [hp]

theorem pinned_reconcile_preserved (fail : GroupVersionResource → Bool)
    (latest : List GroupVersionResource) (s : FactoryState) (p : GroupVersionResource)
    (e : GenericInformer) (ch : Nat) (hpin : pinned p)
    (hnd : (s.informerStops.map Prod.snd).Nodup)
    (hinf : lookupA s.informers p = some e)
    (hstop : lookupA s.informerStops p = some ch)
    (hnc : ch ∉ s.closedChans) :
    lookupA (reconcile fail latest s).2.informers p = some e ∧
    lookupA (reconcile fail latest s).2.informerStops p = some ch ∧
    ch ∉ (reconcile fail latest s).2.closedChans := by
  have hpAdd : p ∉ (calculateInformersLockHeld s.informers latest).1 := by
    intro hmem
    have h2 := ((mem_toAdd s.informers latest p).mp hmem).2
    rw [hinf] at h2
    cases h2
  have hpRem : p ∉ (calculateInformersLockHeld s.informers latest).2 := by
    intro hmem
    exact ((mem_toRemove s.informers latest p).mp hmem).2.1 hpin
  have h1i : lookupA
      (processAdds fail (calculateInformersLockHeld s.informers latest).1 s).2.informers p =
      some e :=
    pA_informers_some fail _ s p e hinf
  have h1s : lookupA
      (processAdds fail (calculateInformersLockHeld s.informers latest).1 s).2.informerStops p =
      some ch := by
    rw [pA_stops_notmem fail _ s p hpAdd]
    exact hstop
  have h1c :
      (processAdds fail (calculateInformersLockHeld s.informers latest).1 s).2.closedChans =
      s.closedChans :=
    pA_closed fail _ s
  rcases reconcile_state_cases fail latest s with h | h | h
  · rw [h]
    exact ⟨hinf, hstop, hnc⟩
  · rw [h]
    refine ⟨?_, ?_, ?_⟩
    · rw [pR_informers_lookup _ _ p, if_neg hpRem]
      exact h1i
    · rw [pR_stops_lookup _ _ p, if_neg hpRem]
      exact h1s
    · intro hcontra
      rcases pR_closed_sub _ _ ch hcontra with hcc | ⟨g, hg, hgl⟩
      · rw [h1c] at hcc
        exact hnc hcc
      · have hgprop := (mem_toRemove s.informers latest g).mp hg
        have hgAdd : g ∉ (calculateInformersLockHeld s.informers latest).1 := by
          intro hmem
          have h2 := ((mem_toAdd s.informers latest g).mp hmem).2
          have h3 := (lookupA_isSome_iff s.informers g).mpr hgprop.1
          rw [h2] at h3
          simp at h3
        rw [pA_stops_notmem fail _ s g hgAdd] at hgl
        have hgp := pair_eq_of_nodup_snd hnd (mem_of_lookupA_some hgl)
          (mem_of_lookupA_some hstop)
        exact hgprop.2.1 (by rw [hgp]; exact hpin)
  · rw [h]
    refine ⟨h1i, h1s, ?_⟩
    rw [h1c]
    exact hnc

/-- C4: the pinned customresourcedefinitions and apibindings keys never
appear in a computed toRemove set regardless of the informer map and the
discovered set, and a discovery pass never stops or deletes a pinned key's
watch entry: its informer binding and its stop channel binding survive the
pass unchanged and its stop channel is never closed (stop channel handles
being pairwise distinct, as the factory creates them fresh). -/
theorem C4_pinned_never_removed (p : GroupVersionResource)
    (hp : p = crdGVR ∨ p = apibindingsGVR) :
    (∀ (informers : List (GroupVersionResource × GenericInformer))
        (latest : List GroupVersionResource),
      p ∉ (calculateInformersLockHeld informers latest).2) ∧
    (∀ (env : DiscoveryEnv) (s : FactoryState) (e : GenericInformer) (ch : Nat),
      (s.informerStops.map Prod.snd).Nodup →
      lookupA s.informers p = some e →
      lookupA s.informerStops p = some ch →
      ch ∉ s.closedChans →
      lookupA (discoverTypes env s).2.informers p = some e ∧
      lookupA (discoverTypes env s).2.informerStops p = some ch ∧
      ch ∉ (discoverTypes env s).2.closedChans) := by
  have hpin : pinned p := hp
  constructor
  · intro informers latest hmem
    exact ((mem_toRemove informers latest p).mp hmem).2.1 hpin
  · intro env s e ch hnd hinf hstop hnc
    cases hcl : computeLatest env with
    | error e2 =>
      rw [dT_error_computeLatest env s e2 hcl]
      exact ⟨hinf, hstop, hnc⟩
    | ok latest =>
      rw [dT_ok env s latest hcl]
      exact pinned_reconcile_preserved env.addIndexersFail latest s p e ch hpin hnd hinf
        hstop hnc

/-- Witness for C4: the pinned customresourcedefinitions key, with a
running synced watch on stop channel 5, survives a discovery pass whose
DiscoveredSet is empty: the entry and its stop channel binding are intact
and channel 5 is not closed. -/
theorem C4_pinned_witness :
    (crdGVR = crdGVR ∨ crdGVR = apibindingsGVR) ∧
    crdGVR ∉ (calculateInformersLockHeld sPin.informers [gvrA]).2 ∧
    ((sPin.informerStops.map Prod.snd).Nodup ∧
      lookupA sPin.informers crdGVR = some ⟨0, true⟩ ∧
      lookupA sPin.informerStops crdGVR = some 5 ∧
      (5 : Nat) ∉ sPin.closedChans) ∧
    (lookupA (discoverTypes envNone sPin).2.informers crdGVR = some ⟨0, true⟩ ∧
      lookupA (discoverTypes envNone sPin).2.informerStops crdGVR = some 5 ∧
      (5 : Nat) ∉ (discoverTypes envNone sPin).2.closedChans) :=
  ⟨Or.inl rfl,
   (C4_pinned_never_removed crdGVR (Or.inl rfl)).1 sPin.informers [gvrA],
   ⟨by decide, by decide, by decide, by decide⟩,
   (C4_pinned_never_removed crdGVR (Or.inl rfl)).2 envNone sPin ⟨0, true⟩ 5
     (by decide) (by decide) (by decide) (by decide)⟩

/-- C2 counterexample: a reconciliation where toAdd is the single key gvrA,
whose informer creation (AddIndexers) fails, and toRemove is the single key
gvrC.  The claim says the toRemove keys are still processed; evaluating
discoverTypes shows the pass instead aborts with the error while gvrC's
watch is neither stopped (no channel closed) nor removed. -/
theorem C2_counterexample :
    computeLatest envFailA = .ok [gvrA] ∧
    (calculateInformersLockHeld sHasC.informers [gvrA]).1 = [gvrA] ∧
    (calculateInformersLockHeld sHasC.informers [gvrA]).2 = [gvrC] ∧
    (discoverTypes envFailA sHasC).1 = .error ("indexer already exists") ∧
    lookupA (discoverTypes envFailA sHasC).2.informers gvrC = some ⟨0, false⟩ ∧
    lookupA (discoverTypes envFailA sHasC).2.informerStops gvrC = some 0 ∧
    (discoverTypes envFailA sHasC).2.closedChans = [] := by
  decide

/-- C2 (amended): when the discovery phase succeeds but creating the watch
for some toAdd key fails, discoverTypes returns that error immediately:
no stop channel is closed, every informer present before the pass is still
present unchanged (in particular every toRemove key keeps its informer and
stop channel bindings, so no toRemove key is processed in that pass), and
the error stems from an individual toAdd watch whose initialization
failed. -/
theorem C2_abort_on_add_failure (env : DiscoveryEnv) (s s2 : FactoryState) (e : String)
    (latest : List GroupVersionResource)
    (hlat : computeLatest env = .ok latest)
    (herr : discoverTypes env s = (.error e, s2)) :
    s2.closedChans = s.closedChans ∧
    (∀ g v, lookupA s.informers g = some v → lookupA s2.informers g = some v) ∧
    (∀ g, g ∈ (calculateInformersLockHeld s.informers latest).2 →
      lookupA s2.informers g = lookupA s.informers g ∧
      lookupA s2.informerStops g = lookupA s.informerStops g) ∧
    (∃ g, g ∈ (calculateInformersLockHeld s.informers latest).1 ∧
      env.addIndexersFail g = true) := by
  rw [dT_ok env s latest hlat] at herr
  have hp := reconcile_error_elim env.addIndexersFail latest s s2 e herr
  have hs2 : s2 = (processAdds env.addIndexersFail
      (calculateInformersLockHeld s.informers latest).1 s).2 := by
    rw [hp]
  refine ⟨?_, ?_, ?_, ?_⟩
  · rw [hs2, pA_closed]
  · intro g v hg
    rw [hs2]
    exact pA_informers_some _ _ s g v hg
  · intro g hg
    have hgprop := (mem_toRemove s.informers latest g).mp hg
    have hgAdd : g ∉ (calculateInformersLockHeld s.informers latest).1 := by
      intro hmem
      have h2 := ((mem_toAdd s.informers latest g).mp hmem).2
      have h3 := (lookupA_isSome_iff s.informers g).mpr hgprop.1
      rw [h2] at h3
      simp at h3
    constructor
    · rcases Option.isSome_iff_exists.mp ((lookupA_isSome_iff s.informers g).mpr hgprop.1)
        with ⟨v, hv⟩
      rw [hs2, pA_informers_some _ _ s g v hv, hv]
    · rw [hs2, pA_stops_notmem _ _ s g hgAdd]
  · exact pA_error_mem _ _ s s2 e hp

/-- Witness for the amended C2 at the counterexample input. -/
theorem C2_abort_witness :
    computeLatest envFailA = .ok [gvrA] ∧
    discoverTypes envFailA sHasC =
      (.error ("indexer already exists"), (discoverTypes envFailA sHasC).2) ∧
    ((discoverTypes envFailA sHasC).2.closedChans = sHasC.closedChans ∧
     (∀ g v, lookupA sHasC.informers g = some v →
        lookupA (discoverTypes envFailA sHasC).2.informers g = some v) ∧
     (∀ g, g ∈ (calculateInformersLockHeld sHasC.informers [gvrA]).2 →
        lookupA (discoverTypes envFailA sHasC).2.informers g =
          lookupA sHasC.informers g ∧
        lookupA (discoverTypes envFailA sHasC).2.informerStops g =
          lookupA sHasC.informerStops g) ∧
     (∃ g, g ∈ (calculateInformersLockHeld sHasC.informers [gvrA]).1 ∧
        envFailA.addIndexersFail g = true)) :=
  ⟨rfl, rfl,
   C2_abort_on_add_failure envFailA sHasC (discoverTypes envFailA sHasC).2
     ("indexer already exists") [gvrA] rfl rfl⟩

/-- C3 counterexample: the descriptor named a/status is namespaced and
supports both list and watch, so the claim's condition says the
corresponding type must be in the DiscoveredSet; the pass nevertheless
returns the empty set because the code also skips names containing a
slash. -/
theorem C3_counterexample :
    resSub.namespaced = true ∧ ("list") ∈ resSub.verbs ∧ ("watch") ∈ resSub.verbs ∧
    (∃ rls, envSub.disco ("w") = .ok rls ∧ ∃ rl, rl ∈ rls ∧ resSub ∈ rl.apiResources) ∧
    computeLatest envSub = .ok [] := by
  refine ⟨by decide, by decide, by decide, ?_, by decide⟩
  exact ⟨[⟨"g/v1", [resSub]⟩], rfl, ⟨"g/v1", [resSub]⟩, by decide, by decide⟩

/-- C3 (amended): for a successful discovery pass, a type key belongs to
the DiscoveredSet if and only if some workspace's discovery reports a
descriptor for it whose name contains no slash (not a subresource), that is
namespaced-scoped, and whose verb set contains both list and watch;
descriptors failing the filter are skipped silently, not errored. -/
theorem C3_discovery_filter (env : DiscoveryEnv) (wss : List String)
    (latest : List GroupVersionResource)
    (hws : env.workspaces = .ok wss) (hok : computeLatest env = .ok latest) :
    ∀ x, x ∈ latest ↔ ∃ ws, ws ∈ wss ∧ ∃ rls, env.disco ws = .ok rls ∧
      ∃ rl, rl ∈ rls ∧ ∃ gv, parseGroupVersion rl.groupVersion = some gv ∧
        ∃ ai, ai ∈ rl.apiResources ∧ ('/' ∉ ai.name.toList) ∧ ai.namespaced = true ∧
          ("list") ∈ ai.verbs ∧ ("watch") ∈ ai.verbs ∧
          x = ⟨gv.1, gv.2, ai.name⟩ := by
  intro x
  have hfold : foldE (addWorkspace env) [] wss = .ok latest := by
    unfold computeLatest at hok
    rw [hws] at hok
    exact hok
  rw [mem_foldE_addWorkspace env wss [] latest hfold x]
  simp only [List.not_mem_nil, false_or]
  constructor
  · rintro ⟨ws, h1, rls, h2, rl, h3, gv, h4, ai, h5, hk, h6⟩
    have hkk : ('/' ∉ ai.name.toList) ∧ ai.namespaced = true ∧
        ("list") ∈ ai.verbs ∧ ("watch") ∈ ai.verbs := of_decide_eq_true hk
    exact ⟨ws, h1, rls, h2, rl, h3, gv, h4, ai, h5, hkk.1, hkk.2.1, hkk.2.2.1,
      hkk.2.2.2, h6⟩
  · rintro ⟨ws, h1, rls, h2, rl, h3, gv, h4, ai, h5, hs1, hs2, hs3, hs4, h6⟩
    refine ⟨ws, h1, rls, h2, rl, h3, gv, h4, ai, h5, ?_, h6⟩
    exact decide_eq_true ⟨hs1, hs2, hs3, hs4⟩

/-- Witness for C3 at a concrete successful pass: the characterization
instantiated at gvrA, which the pass discovered. -/
theorem C3_filter_witness :
    envAB.workspaces = .ok [("w")] ∧ computeLatest envAB = .ok [gvrA, gvrB] ∧
    (gvrA ∈ [gvrA, gvrB] ↔ ∃ ws, ws ∈ [("w")] ∧ ∃ rls, envAB.disco ws = .ok rls ∧
      ∃ rl, rl ∈ rls ∧ ∃ gv, parseGroupVersion rl.groupVersion = some gv ∧
        ∃ ai, ai ∈ rl.apiResources ∧ ('/' ∉ ai.name.toList) ∧ ai.namespaced = true ∧
          ("list") ∈ ai.verbs ∧ ("watch") ∈ ai.verbs ∧
          gvrA = ⟨gv.1, gv.2, ai.name⟩) :=
  ⟨rfl, rfl, C3_discovery_filter envAB [("w")] [gvrA, gvrB] rfl rfl gvrA⟩

/-- C5: after a successful discovery pass, a second pass against the same
DiscoveredSet computes empty toAdd and toRemove sets and performs no start
or stop actions: it returns the state it was given, so the informer map,
started flags and stop handles are unchanged. -/
theorem C5_reconcile_idempotent (env : DiscoveryEnv) (s s2 : FactoryState)
    (latest : List GroupVersionResource)
    (hok : computeLatest env = .ok latest)
    (hfirst : discoverTypes env s = (.ok (), s2)) :
    calculateInformersLockHeld s2.informers latest = ([], []) ∧
    discoverTypes env s2 = (.ok (), s2) := by
  rw [dT_ok env s latest hok] at hfirst
  have hcalc : calculateInformersLockHeld s2.informers latest = ([], []) := by
    rcases reconcile_ok_elim env.addIndexersFail latest s s2 () hfirst with
      ⟨hc, rfl⟩ | ⟨s1, hp, rfl⟩
    · exact hc
    · have hs1 : s1 = (processAdds env.addIndexersFail
          (calculateInformersLockHeld s.informers latest).1 s).2 := by
        rw [hp]
      have hnr : ∀ g, g ∈ latest → g ∉ (calculateInformersLockHeld s.informers latest).2 := by
        intro g hgl hgr
        exact ((mem_toRemove s.informers latest g).mp hgr).2.2 hgl
      have hfill : ∀ g, g ∈ latest →
          (lookupA (processRemoves (calculateInformersLockHeld s.informers latest).2
            s1).informers g).isSome := by
        intro g hgl
        rw [pR_informers_lookup _ _ g, if_neg (hnr g hgl)]
        cases hl : lookupA s.informers g with
        | some v =>
          rw [hs1, pA_informers_some env.addIndexersFail _ s g v hl]
          rfl
        | none =>
          have hgAdd : g ∈ (calculateInformersLockHeld s.informers latest).1 :=
            (mem_toAdd s.informers latest g).mpr ⟨hgl, hl⟩
          exact pA_ok_mem env.addIndexersFail _ s s1 () hp g hgAdd
      have hdom : ∀ g,
          (lookupA (processRemoves (calculateInformersLockHeld s.informers latest).2
            s1).informers g).isSome →
          pinned g ∨ g ∈ latest := by
        intro g hgs
        rw [pR_informers_lookup _ _ g] at hgs
        by_cases hgr : g ∈ (calculateInformersLockHeld s.informers latest).2
        · rw [if_pos hgr] at hgs
          simp at hgs
        · rw [if_neg hgr] at hgs
          rw [hs1] at hgs
          rcases pA_dom env.addIndexersFail _ s g hgs with h1 | h1
          · by_contra hno
            push_neg at hno
            exact hgr ((mem_toRemove s.informers latest g).mpr
              ⟨(lookupA_isSome_iff s.informers g).mp h1, hno.1, hno.2⟩)
          · exact Or.inr ((mem_toAdd s.informers latest g).mp h1).1
      refine Prod.ext ?_ ?_
      · show List.filter _ latest = ([], ([] : List GroupVersionResource)).1
        rw [List.filter_eq_nil_iff]
        intro g hgl
        simp only [decide_eq_true_eq]
        intro hnone
        have hsome := hfill g hgl
        rw [hnone] at hsome
        simp at hsome
      · show List.filter _ (List.map Prod.fst _) = ([], ([] : List GroupVersionResource)).2
        rw [List.filter_eq_nil_iff]
        intro g hgk
        simp only [decide_eq_true_eq]
        rintro ⟨hnp, hnl⟩
        have hgs := (lookupA_isSome_iff _ g).mpr hgk
        rcases hdom g hgs with h1 | h1
        · exact hnp h1
        · exact hnl h1
  refine ⟨hcalc, ?_⟩
  rw [dT_ok env s2 latest hok]
  exact reconcile_empty env.addIndexersFail latest s2 hcalc

/-- Witness for C5: the first pass of the concrete scenario succeeds, and
the second pass against the same environment is a no-op returning the same
state. -/
theorem C5_idempotent_witness :
    computeLatest envAB = .ok [gvrA, gvrB] ∧
    discoverTypes envAB s0 = (.ok (), sAB) ∧
    (calculateInformersLockHeld sAB.informers [gvrA, gvrB] = ([], []) ∧
      discoverTypes envAB sAB = (.ok (), sAB)) :=
  ⟨rfl, rfl, C5_reconcile_idempotent envAB s0 sAB [gvrA, gvrB] rfl rfl⟩
